import Mathlib

/-!
Shallow embedding of the imagegen web application's persistence store and
background worker (Go package `webapp`), together with proofs of the
spec-level properties of the asynchronous job pipeline.

Modelling conventions:
* SQL tables are Lean lists kept in rowid (insertion) order; AUTOINCREMENT
  ids come from explicit counters in the store state.
* Timestamps (`strftime` in the source) are abstract `Nat` ticks passed in
  by the caller.
* Each `sqlite3` child-process invocation executes one statement atomically
  (the store serializes them behind a mutex); the embedding gives one pure
  state-transformer per statement.
* Fallible operations return `Except String` mirroring the Go `error`
  results; a plain `UPDATE` that matches zero rows succeeds (as `execSQL`
  does), while a constraint violation on `INSERT` is an error.
-/

deriving instance DecidableEq for Except

namespace Imagegen

/-! ## Slug normalization (`Slugify`, part_006 lines 39-44) -/

/-- Character class of the sanitize pattern: the regular expression
used by the source is the complement class of `[a-z0-9]`, applied after
lowercasing; this recognizes the characters that are kept. -/
def isSlugKeep (c : Char) : Bool :=
  (97 ≤ c.toNat && c.toNat ≤ 122) || (48 ≤ c.toNat && c.toNat ≤ 57)

/-- ASCII case mapping of `strings.ToLower` (Unicode case mapping outside
ASCII is not modelled; such characters are outside `[a-z0-9]` before and,
with negligible exceptions, after lowering, so they collapse to a dash
either way). -/
def lowerChar (c : Char) : Char :=
  if 65 ≤ c.toNat ∧ c.toNat ≤ 90 then Char.ofNat (c.toNat + 32) else c

/-- Whitespace recognized by `strings.TrimSpace` (ASCII subset). -/
def isSpaceChar (c : Char) : Bool :=
  c.toNat = 32 || c.toNat = 9 || c.toNat = 10 ||
    c.toNat = 11 || c.toNat = 12 || c.toNat = 13

/-- Embeds `strings.TrimSpace`: drop whitespace from both ends. -/
def trimSpaceL (l : List Char) : List Char :=
  ((l.dropWhile isSpaceChar).reverse.dropWhile isSpaceChar).reverse

/-- Embeds `slugSanitizePattern.ReplaceAllString(s, "-")`: every maximal
run of characters outside `[a-z0-9]` becomes one dash.  The flag records
whether the previous character belonged to such a run. -/
def squashRuns : List Char → Bool → List Char
  | [], _ => []
  | c :: cs, inRun =>
    if isSlugKeep c then c :: squashRuns cs false
    else if inRun then squashRuns cs true
    else '-' :: squashRuns cs true

def isDash (c : Char) : Bool := c = '-'

/-- Embeds `strings.Trim(s, "-")`. -/
def trimDashes (l : List Char) : List Char :=
  ((l.dropWhile isDash).reverse.dropWhile isDash).reverse

/-- Embeds `Slugify` from the store: lowercase and trim the input, collapse
runs of non-alphanumeric characters into single dashes, trim dashes. -/
def slugifyL (l : List Char) : List Char :=
  trimDashes (squashRuns ((trimSpaceL l).map lowerChar) false)

def Slugify (s : String) : String :=
  ⟨slugifyL s.data⟩

/-! ### Shape of slugify output -/

/-- Adjacent dashes never occur. -/
def noDD : List Char → Prop
  | [] => True
  | [_] => True
  | c :: d :: cs => ¬(c = '-' ∧ d = '-') ∧ noDD (d :: cs)

/-- Embeds `strings.TrimSpace` at the string level. -/
def goTrimSpace (s : String) : String :=
  ⟨trimSpaceL s.data⟩

/-! ## Data model (tables of the sqlite schema, part_006 lines 560-639) -/

/-- Status strings stored in the `status` columns. -/
inductive JStatus where
  | queued
  | running
  | succeeded
  | failed
deriving DecidableEq, Repr

/-- Embeds `GenerateJobPayload` (the JSON payload; the `aspect` field is
the aspect-ratio selector). -/
structure GenerateJobPayload where
  model : String
  count : Int
  outputFormat : String
  imageSize : String
  aspect : String
  adjustment : String
deriving DecidableEq, Repr

structure BrandRec where
  id : Nat
  name : String
  slug : String
  content : String
  createdAt : Nat
  updatedAt : Nat
deriving DecidableEq, Repr

structure ProjectRec where
  id : Nat
  name : String
  slug : String
  defaultBrandId : Option Nat
  createdAt : Nat
  updatedAt : Nat
deriving DecidableEq, Repr

structure WorkItemRec where
  id : Nat
  projectId : Nat
  name : String
  slug : String
  itemType : String
  prompt : String
  brandId : Option Nat
  createdAt : Nat
  updatedAt : Nat
deriving DecidableEq, Repr

/-- Row of the `jobs` table.  The `payload_json` column always holds the
JSON marshalling of a `GenerateJobPayload` (every insert goes through
`json.Marshal`), which round-trips; the embedding therefore stores the
structured payload. -/
structure JobRec where
  id : Nat
  workItemId : Nat
  runId : Option Nat
  status : JStatus
  payload : GenerateJobPayload
  errorMessage : Option String
  createdAt : Nat
  startedAt : Option Nat
  finishedAt : Option Nat
deriving DecidableEq, Repr

/-- Row of the `runs` table; `settings` embeds the `settings_json`
column (same round-trip note as for jobs). -/
structure RunRec where
  id : Nat
  jobId : Nat
  workItemId : Nat
  promptSnapshot : String
  settings : GenerateJobPayload
  status : JStatus
  errorMessage : Option String
  createdAt : Nat
  finishedAt : Option Nat
deriving DecidableEq, Repr

structure RunImageRec where
  id : Nat
  runId : Nat
  filename : String
  relPath : String
  format : String
  createdAt : Nat
deriving DecidableEq, Repr

/-- The whole database: each table is a list in rowid (insertion) order,
with the AUTOINCREMENT counters made explicit. -/
structure DB where
  brands : List BrandRec
  projects : List ProjectRec
  workItems : List WorkItemRec
  jobs : List JobRec
  runs : List RunRec
  runImages : List RunImageRec
  nextJobId : Nat
  nextRunId : Nat
  nextImageId : Nat
deriving DecidableEq, Repr

/-! ## Store operations (part_006) -/

/-- Embeds Store.GetBrand (lines 77-93): the slug argument is slugified,
then the first brand with that slug is selected; `os.ErrNotExist` when
none matches. -/
def GetBrand (db : DB) (slug : String) : Except String BrandRec :=
  match db.brands.find? (fun b => b.slug == Slugify slug) with
  | some b => .ok b
  | none => .error "ErrNotExist"

/-- Embeds Store.GetProject (lines 137-157); the display-only joined
columns (default brand slug, work item count) are projections that no
claim depends on and are not materialized here. -/
def GetProject (db : DB) (slug : String) : Except String ProjectRec :=
  match db.projects.find? (fun p => p.slug == Slugify slug) with
  | some p => .ok p
  | none => .error "ErrNotExist"

/-- Embeds Store.GetWorkItem (lines 218-239): both slugs are slugified and
the work item is found through the join with its project. -/
def GetWorkItem (db : DB) (projectSlug itemSlug : String) :
    Except String WorkItemRec :=
  let ps := Slugify projectSlug
  let islug := Slugify itemSlug
  match db.workItems.find? (fun w =>
      w.slug == islug &&
        ((db.projects.find? (fun p => p.id == w.projectId)).any
          (fun p => p.slug == ps))) with
  | some w => .ok w
  | none => .error "ErrNotExist"

/-- Embeds Store.UpdateWorkItemPrompt (lines 264-285): reject an empty
prompt, then update prompt and updated_at of the work items matched by the
project/item slug pair (the UPDATE with the id-subselect). -/
def UpdateWorkItemPrompt (db : DB) (projectSlug itemSlug prompt : String)
    (now : Nat) : DB × Except String WorkItemRec :=
  let p := goTrimSpace prompt
  if p = "" then (db, .error "prompt is required")
  else
    let ps := Slugify projectSlug
    let islug := Slugify itemSlug
    let db1 : DB := { db with workItems := db.workItems.map (fun w =>
      if w.slug == islug &&
          ((db.projects.find? (fun pr => pr.id == w.projectId)).any
            (fun pr => pr.slug == ps))
      then { w with prompt := p, updatedAt := now } else w) }
    (db1, GetWorkItem db1 projectSlug itemSlug)

/-- Embeds the payload defaulting at the top of Store.CreateGenerateJob
(lines 294-305): there is no validation, only replacement of missing or
out-of-range fields by defaults. -/
def normalizePayload (p : GenerateJobPayload) : GenerateJobPayload :=
  let p1 := if p.count < 1 then { p with count := 1 } else p
  let p2 := if p1.model = "" then { p1 with model := "both" } else p1
  let p3 := if p2.outputFormat = "" then { p2 with outputFormat := "png" } else p2
  if p3.imageSize = "" then { p3 with imageSize := "1K" } else p3

/-- Embeds Store.CreateGenerateJob (lines 287-321): look up the work item
(NotFound propagates with no insert), default the payload, insert a
queued job. -/
def CreateGenerateJob (db : DB) (projectSlug itemSlug : String)
    (payload : GenerateJobPayload) (now : Nat) : DB × Except String JobRec :=
  match GetWorkItem db projectSlug itemSlug with
  | .error e => (db, .error e)
  | .ok item =>
    let pl := normalizePayload payload
    let job : JobRec :=
      { id := db.nextJobId, workItemId := item.id,
        runId := none, status := .queued, payload := pl, errorMessage := none,
        createdAt := now, startedAt := none, finishedAt := none }
    ({ db with jobs := db.jobs ++ [job], nextJobId := db.nextJobId + 1 },
      .ok job)

/-- Sorting helper for ListJobs (`ORDER BY j.created_at DESC`). -/
def insertByCreatedAtDesc (j : JobRec) : List JobRec → List JobRec
  | [] => [j]
  | k :: ks =>
    if k.createdAt < j.createdAt then j :: k :: ks
    else k :: insertByCreatedAtDesc j ks

def sortByCreatedAtDesc (l : List JobRec) : List JobRec :=
  l.foldr insertByCreatedAtDesc []

/-- Embeds Store.ListJobs (lines 323-347): newest first, bounded by the
limit (defaulted to 50 when non-positive). -/
def ListJobs (db : DB) (limit : Int) : List JobRec :=
  let lim : Int := if limit ≤ 0 then 50 else limit
  (sortByCreatedAtDesc db.jobs).take lim.toNat

/-- The execution context row produced by the claim SELECT. -/
structure ClaimRow where
  jobId : Nat
  workItemId : Nat
  projectSlug : String
  projectName : String
  workItemSlug : String
  workItemName : String
  prompt : String
  brandSlug : String
  brandContent : String
  payload : GenerateJobPayload
deriving DecidableEq, Repr

/-- The joined row for one job: inner joins on work item and project
(a job with a dangling reference produces no row), left joins on the
work-item brand and the project default brand, COALESCE preferring the
work-item override. -/
def joinClaimRow (db : DB) (j : JobRec) : Option ClaimRow :=
  match db.workItems.find? (fun w => w.id == j.workItemId) with
  | none => none
  | some w =>
    match db.projects.find? (fun p => p.id == w.projectId) with
    | none => none
    | some p =>
      let bw := w.brandId.bind (fun i => db.brands.find? (fun b => b.id == i))
      let bp := p.defaultBrandId.bind
        (fun i => db.brands.find? (fun b => b.id == i))
      some
        { jobId := j.id, workItemId := w.id, projectSlug := p.slug,
          projectName := p.name, workItemSlug := w.slug,
          workItemName := w.name, prompt := w.prompt,
          brandSlug := ((bw.map (fun b => b.slug)).getD
            ((bp.map (fun b => b.slug)).getD "")),
          brandContent := ((bw.map (fun b => b.content)).getD
            ((bp.map (fun b => b.content)).getD "")),
          payload := j.payload }

/-- First job with minimal created_at; ties keep the earlier (rowid-order)
row, which is the order the idx_jobs_status_created index scan delivers
for `ORDER BY j.created_at ASC LIMIT 1`. -/
def firstMinByCreatedAt : List JobRec → Option JobRec
  | [] => none
  | j :: js =>
    match firstMinByCreatedAt js with
    | none => some j
    | some m => if m.createdAt < j.createdAt then some m else some j

/-- The jobs the claim SELECT ranges over: queued, with the inner joins
on work item and project resolving. -/
def claimableJobs (db : DB) : List JobRec :=
  db.jobs.filter (fun j =>
    j.status == .queued && (joinClaimRow db j).isSome)

/-- Embeds the SELECT statement of Store.ClaimNextQueuedJob
(lines 400-414). -/
def claimSelect (db : DB) : Option ClaimRow :=
  match firstMinByCreatedAt (claimableJobs db) with
  | none => none
  | some j => joinClaimRow db j

/-- Embeds the conditional UPDATE of Store.ClaimNextQueuedJob
(lines 422-425): `set status = running, started_at = now where id = X and
status = queued`.  A zero-row update leaves the table unchanged and, like
`execSQL`, reports no error. -/
def claimUpdate (db : DB) (jobId now : Nat) : DB :=
  { db with jobs := db.jobs.map (fun j =>
      if j.id == jobId && j.status == .queued
      then { j with status := .running, startedAt := some now } else j) }

/-- Embeds one uninterrupted invocation of Store.ClaimNextQueuedJob:
SELECT, then the conditional UPDATE, then the context is returned.  The
source returns a non-nil context whenever the SELECT produced a row; it
never inspects how many rows the UPDATE changed. -/
def ClaimNextQueuedJob (db : DB) (now : Nat) : DB × Option ClaimRow :=
  match claimSelect db with
  | none => (db, none)
  | some row => (claimUpdate db row.jobId now, some row)

/-- The INSERT statement of Store.CreateRun (lines 449-453). -/
def runInsert (db : DB) (jobId workItemId : Nat) (promptSnapshot : String)
    (settings : GenerateJobPayload) (now : Nat) : DB :=
  { db with
      runs := db.runs ++
        [{ id := db.nextRunId, jobId := jobId, workItemId := workItemId,
           promptSnapshot := promptSnapshot, settings := settings,
           status := .running, errorMessage := none, createdAt := now,
           finishedAt := none }],
      nextRunId := db.nextRunId + 1 }

/-- The UPDATE statement of Store.CreateRun (line 461): set jobs.run_id. -/
def setJobRunId (db : DB) (jobId runId : Nat) : DB :=
  { db with jobs := db.jobs.map (fun j =>
      if j.id == jobId then { j with runId := some runId } else j) }

/-- Embeds Store.CreateRun (lines 447-465).  The INSERT hits the UNIQUE
constraint on runs.job_id when a run for the job already exists: sqlite
reports an error, nothing is inserted, and the jobs.run_id update is not
reached. -/
def CreateRun (db : DB) (jobId workItemId : Nat) (promptSnapshot : String)
    (settings : GenerateJobPayload) (now : Nat) : DB × Except String Nat :=
  if db.runs.any (fun r => r.jobId == jobId) then
    (db, .error "UNIQUE constraint failed: runs.job_id")
  else
    let runId := db.nextRunId
    (setJobRunId (runInsert db jobId workItemId promptSnapshot settings now)
        jobId runId,
      .ok runId)

/-- Embeds Store.MarkRunSucceeded (lines 467-469). -/
def MarkRunSucceeded (db : DB) (runId now : Nat) : DB :=
  { db with runs := db.runs.map (fun r =>
      if r.id == runId then
        { r with status := .succeeded, finishedAt := some now }
      else r) }

/-- Embeds Store.MarkRunFailed (lines 471-473). -/
def MarkRunFailed (db : DB) (runId : Nat) (message : String) (now : Nat) : DB :=
  { db with runs := db.runs.map (fun r =>
      if r.id == runId then
        { r with status := .failed,
                 errorMessage := some (goTrimSpace message),
                 finishedAt := some now }
      else r) }

/-- Embeds Store.MarkJobSucceeded (lines 475-477). -/
def MarkJobSucceeded (db : DB) (jobId now : Nat) : DB :=
  { db with jobs := db.jobs.map (fun j =>
      if j.id == jobId then
        { j with status := .succeeded, finishedAt := some now }
      else j) }

/-- Embeds Store.MarkJobFailed (lines 479-481). -/
def MarkJobFailed (db : DB) (jobId : Nat) (message : String) (now : Nat) : DB :=
  { db with jobs := db.jobs.map (fun j =>
      if j.id == jobId then
        { j with status := .failed,
                 errorMessage := some (goTrimSpace message),
                 finishedAt := some now }
      else j) }

/-- Embeds Store.AddRunImage (lines 483-488). -/
def AddRunImage (db : DB) (runId : Nat) (filename relPath format : String)
    (now : Nat) : DB :=
  { db with
      runImages := db.runImages ++
        [{ id := db.nextImageId, runId := runId, filename := filename,
           relPath := relPath, format := format, createdAt := now }],
      nextImageId := db.nextImageId + 1 }

/-! ## Background worker (Server.processNextJob, part_007 lines 505-625) -/

/-- Entry returned by os.ReadDir on the output directory. -/
structure DirEntry where
  name : String
  isDir : Bool
deriving DecidableEq, Repr

/-- External effects of one worker cycle, fixed up front as an oracle:
filesystem and subprocess outcomes that the store does not control.
The error-message fields carry the corresponding Go error strings. -/
structure WorkerWorld where
  mkdirOutputOk : Bool
  mkdirOutputMsg : String
  mkdirTempOk : Bool
  mkdirTempMsg : String
  writeBrandOk : Bool
  writeBrandMsg : String
  subprocessOk : Bool
  subprocessErrMsg : String
  subprocessOut : String
  readDirOk : Bool
  readDirMsg : String
  dirEntries : List DirEntry
  relPathOf : String → Option String
  imageInsertOk : Nat → Bool

/-- Filesystem fact tracked for resource cleanup: whether the temporary
brand directory of the current cycle exists. -/
structure FS where
  brandDirExists : Bool
deriving DecidableEq, Repr

/-- Models the cleanup closure `os.RemoveAll(brandDir)` registered right
after a successful MkdirTemp. -/
def cleanupBrandDir (_fs : FS) : FS :=
  { brandDirExists := false }

/-- Embeds the prompt merge (lines 529-532). -/
def mergedPrompt (prompt adjustment : String) : String :=
  let p := goTrimSpace prompt
  if goTrimSpace adjustment = "" then p
  else p ++ "\n\nAdjustments:\n" ++ goTrimSpace adjustment

/-- Embeds `filepath.Ext` for plain file names (ReadDir names contain no
path separator): the suffix beginning at the final dot, empty when the
name has no dot. -/
def fileExtL (l : List Char) : List Char :=
  let r := l.reverse.takeWhile (fun c => c ≠ '.')
  if r.length = l.length then [] else '.' :: r.reverse

def fileExt (name : String) : String :=
  ⟨fileExtL name.data⟩

/-- ASCII `strings.ToLower` on a whole string. -/
def lowerStr (s : String) : String :=
  ⟨s.data.map lowerChar⟩

/-- The extension allow-list of the harvesting loop (line 611). -/
def isRecognizedExt (ext : String) : Bool :=
  ext == ".png" || ext == ".jpg" || ext == ".jpeg" ||
    ext == ".webp" || ext == ".ico"

/-- Embeds `strings.TrimPrefix(ext, ".")`. -/
def stripDot (s : String) : String :=
  match s.data with
  | '.' :: rest => ⟨rest⟩
  | _ => s

/-- Embeds the harvesting loop (lines 605-620): directories and
unrecognized extensions are skipped; a failed relative-path computation
skips the entry; the AddRunImage error is discarded, so a failed insert
(oracle index is the entry position) drops only that entry. -/
def harvest (w : WorkerWorld) (runId now : Nat) :
    DB → List DirEntry → Nat → DB
  | db, [], _ => db
  | db, e :: es, i =>
    if e.isDir then harvest w runId now db es (i + 1)
    else
      let ext := lowerStr (fileExt e.name)
      if isRecognizedExt ext then
        match w.relPathOf e.name with
        | none => harvest w runId now db es (i + 1)
        | some rel =>
          let db1 :=
            if w.imageInsertOk i then
              AddRunImage db runId e.name rel (stripDot ext) now
            else db
          harvest w runId now db1 es (i + 1)
      else harvest w runId now db es (i + 1)

structure CycleResult where
  db : DB
  fs : FS
deriving Repr

/-- Embeds the tail of the cycle from the subprocess invocation on
(lines 583-625).  The fs argument is the filesystem state after the
cleanup loop, which the source runs immediately after CombinedOutput
returns and before inspecting the error. -/
def cycleFromSubprocess (db : DB) (w : WorkerWorld) (now jobId runId : Nat)
    (fs : FS) : CycleResult :=
  if w.subprocessOk = false then
    let msg := "generate failed: " ++ w.subprocessErrMsg ++ "\n" ++
      goTrimSpace w.subprocessOut
    { db := MarkJobFailed (MarkRunFailed db runId msg now) jobId msg now,
      fs := fs }
  else if w.readDirOk = false then
    { db := MarkJobFailed (MarkRunFailed db runId w.readDirMsg now)
        jobId w.readDirMsg now,
      fs := fs }
  else
    let db2 := harvest w runId now db w.dirEntries 0
    { db := MarkJobSucceeded (MarkRunSucceeded db2 runId now) jobId now,
      fs := fs }

/-- Embeds Server.processNextJob (lines 505-625): claim, create the run,
prepare the output directory and the optional temporary brand directory,
invoke the subprocess, then either record the failure or harvest, always
finishing job and run in a terminal state on the paths past the claim. -/
def processNextJob (db : DB) (w : WorkerWorld) (now : Nat) : CycleResult :=
  match ClaimNextQueuedJob db now with
  | (db0, none) => { db := db0, fs := { brandDirExists := false } }
  | (db0, some job) =>
    let payload := normalizePayload job.payload
    let runPrompt := mergedPrompt job.prompt payload.adjustment
    match CreateRun db0 job.jobId job.workItemId runPrompt payload now with
    | (db1, .error e) =>
      { db := MarkJobFailed db1 job.jobId e now,
        fs := { brandDirExists := false } }
    | (db1, .ok runId) =>
      if w.mkdirOutputOk = false then
        { db := MarkJobFailed (MarkRunFailed db1 runId w.mkdirOutputMsg now)
            job.jobId w.mkdirOutputMsg now,
          fs := { brandDirExists := false } }
      else if goTrimSpace job.brandContent ≠ "" then
        if w.mkdirTempOk = false then
          { db := MarkJobFailed (MarkRunFailed db1 runId w.mkdirTempMsg now)
              job.jobId w.mkdirTempMsg now,
            fs := { brandDirExists := false } }
        else if w.writeBrandOk = false then
          { db := MarkJobFailed (MarkRunFailed db1 runId w.writeBrandMsg now)
              job.jobId w.writeBrandMsg now,
            fs := cleanupBrandDir { brandDirExists := true } }
        else
          cycleFromSubprocess db1 w now job.jobId runId
            (cleanupBrandDir { brandDirExists := true })
      else
        cycleFromSubprocess db1 w now job.jobId runId
          { brandDirExists := false }

/-! ## Observations and auxiliary system-level definitions -/

/-- Status of the job with the given id, as GetJob (or the polling API)
observes it. -/
def jobStatus? (db : DB) (jobId : Nat) : Option JStatus :=
  (db.jobs.find? (fun j => j.id == jobId)).map (fun j => j.status)

/-- Status of the run with the given id. -/
def runStatus? (db : DB) (runId : Nat) : Option JStatus :=
  (db.runs.find? (fun r => r.id == runId)).map (fun r => r.status)

/-- Rank of a status along queued < running < terminal. -/
def statusRank : JStatus → Nat
  | .queued => 0
  | .running => 1
  | .succeeded => 2
  | .failed => 2

/-- Well-formedness maintained by the store: AUTOINCREMENT job ids are
strictly increasing along the table and below the counter. -/
def WFjobs (db : DB) : Prop :=
  db.jobs.Pairwise (fun a b => a.id < b.id) ∧
    ∀ j ∈ db.jobs, j.id < db.nextJobId

/-- Run-id counterpart of WFjobs. -/
def WFruns (db : DB) : Prop :=
  ∀ r ∈ db.runs, r.id < db.nextRunId

/-- Two concurrent invocations of ClaimNextQueuedJob interleaved at
statement granularity, which the per-statement mutex of the store
permits: both SELECT statements run before either conditional UPDATE.
Each invocation returns a context exactly when its own SELECT produced a
row, which is what the source does (it never reads the affected-row count
of the UPDATE). -/
def claimInterleaved (db : DB) (now : Nat) :
    Option ClaimRow × Option ClaimRow × DB :=
  let r1 := claimSelect db
  let r2 := claimSelect db
  let db1 := match r1 with
    | none => db
    | some row => claimUpdate db row.jobId now
  let db2 := match r2 with
    | none => db1
    | some row => claimUpdate db1 row.jobId now
  (r1, r2, db2)

/-- Contexts returned by n successive uninterrupted invocations of
ClaimNextQueuedJob. -/
def claimSeq (db : DB) (now : Nat) : Nat → List ClaimRow
  | 0 => []
  | n + 1 =>
    match ClaimNextQueuedJob db now with
    | (_, none) => []
    | (db1, some row) => row :: claimSeq db1 now n

/-- Reference order for FIFO claims: stable insertion sort by created_at,
keeping earlier (rowid-order) rows first among equal timestamps. -/
def insertFifo (j : JobRec) : List JobRec → List JobRec
  | [] => [j]
  | k :: ks =>
    if j.createdAt ≤ k.createdAt then j :: k :: ks
    else k :: insertFifo j ks

def sortFifo (l : List JobRec) : List JobRec :=
  l.foldr insertFifo []

/-! ## System traces (enqueue path and single worker) -/

/-- One action of an actor that touches the jobs table: an HTTP enqueue
(Store.CreateGenerateJob) or one full cycle of the single worker
(Server.processNextJob). -/
inductive SysEvent where
  | enqueue (projectSlug itemSlug : String) (payload : GenerateJobPayload)
      (now : Nat)
  | workerCycle (w : WorkerWorld) (now : Nat)

/-- Database states after each store statement of the tail of a worker
cycle (from the subprocess on); harvesting only inserts run_images rows,
so its intermediate states agree with its final state on the jobs table
and are coalesced into it. -/
def cycleTailDBs (db : DB) (w : WorkerWorld) (now jobId runId : Nat) :
    List DB :=
  if w.subprocessOk = false then
    let msg := "generate failed: " ++ w.subprocessErrMsg ++ "\n" ++
      goTrimSpace w.subprocessOut
    [MarkRunFailed db runId msg now,
      MarkJobFailed (MarkRunFailed db runId msg now) jobId msg now]
  else if w.readDirOk = false then
    [MarkRunFailed db runId w.readDirMsg now,
      MarkJobFailed (MarkRunFailed db runId w.readDirMsg now)
        jobId w.readDirMsg now]
  else
    let db2 := harvest w runId now db w.dirEntries 0
    [db2, MarkRunSucceeded db2 runId now,
      MarkJobSucceeded (MarkRunSucceeded db2 runId now) jobId now]

/-- Database states after each store statement of one worker cycle, in
execution order, last state final.  Mirrors processNextJob with the
two statements of CreateRun split out. -/
def cycleDBs (db : DB) (w : WorkerWorld) (now : Nat) : List DB :=
  match ClaimNextQueuedJob db now with
  | (db0, none) => [db0]
  | (db0, some job) =>
    let payload := normalizePayload job.payload
    let runPrompt := mergedPrompt job.prompt payload.adjustment
    match CreateRun db0 job.jobId job.workItemId runPrompt payload now with
    | (db1, .error e) => [db0, MarkJobFailed db1 job.jobId e now]
    | (db1, .ok runId) =>
      let dbIns := runInsert db0 job.jobId job.workItemId runPrompt payload now
      if w.mkdirOutputOk = false then
        [db0, dbIns, db1, MarkRunFailed db1 runId w.mkdirOutputMsg now,
          MarkJobFailed (MarkRunFailed db1 runId w.mkdirOutputMsg now)
            job.jobId w.mkdirOutputMsg now]
      else if goTrimSpace job.brandContent ≠ "" then
        if w.mkdirTempOk = false then
          [db0, dbIns, db1, MarkRunFailed db1 runId w.mkdirTempMsg now,
            MarkJobFailed (MarkRunFailed db1 runId w.mkdirTempMsg now)
              job.jobId w.mkdirTempMsg now]
        else if w.writeBrandOk = false then
          [db0, dbIns, db1, MarkRunFailed db1 runId w.writeBrandMsg now,
            MarkJobFailed (MarkRunFailed db1 runId w.writeBrandMsg now)
              job.jobId w.writeBrandMsg now]
        else
          [db0, dbIns, db1] ++ cycleTailDBs db1 w now job.jobId runId
      else
        [db0, dbIns, db1] ++ cycleTailDBs db1 w now job.jobId runId

/-- Database states contributed by one event (final state last; an
enqueue that fails NotFound leaves the state unchanged). -/
def applyEvent (db : DB) : SysEvent → List DB
  | .enqueue ps islug payload now =>
    [(CreateGenerateJob db ps islug payload now).1]
  | .workerCycle w now => cycleDBs db w now

/-- All statement-level database states produced by a list of events. -/
def runEvents (db : DB) : List SysEvent → List DB
  | [] => []
  | e :: es =>
    let mids := applyEvent db e
    mids ++ runEvents (mids.getLastD db) es

/-- Observable state sequence of a system execution, starting state
included. -/
def obsStates (db : DB) (evts : List SysEvent) : List DB :=
  db :: runEvents db evts

/-- Relation between a job status observed at an earlier time and at any
later time: a present job stays present, its rank never decreases, and a
terminal status never changes. -/
def statusLE (a b : Option JStatus) : Prop :=
  ∀ x, a = some x →
    ∃ y, b = some y ∧ statusRank x ≤ statusRank y ∧
      (statusRank x = 2 → y = x)

/-- Relation between statuses at consecutive statement-level states:
additionally no direct step from queued to a terminal status. -/
def stepOK (a b : Option JStatus) : Prop :=
  statusLE a b ∧
    ¬(a = some .queued ∧ (b = some .succeeded ∨ b = some .failed))

/-! ## Harvest specification (C10) -/

/-- Projection of a run_images row onto its data columns. -/
def imageData (ri : RunImageRec) : Nat × String × String × String :=
  (ri.runId, ri.filename, ri.relPath, ri.format)

/-- Declarative description of which directory entries the harvesting
loop records, phrased directly over the entry list: non-directories with
a recognized (lowercased) extension whose relative path resolves and
whose insert succeeds, recorded with the extension minus its leading dot
as format. -/
def harvestExpected (w : WorkerWorld) (runId : Nat)
    (entries : List (Nat × DirEntry)) : List (Nat × String × String × String) :=
  entries.filterMap (fun pr =>
    let e := pr.2
    if e.isDir then none
    else
      let ext := lowerStr (fileExt e.name)
      if isRecognizedExt ext && w.imageInsertOk pr.1 then
        (w.relPathOf e.name).map (fun rel => (runId, e.name, rel, stripDot ext))
      else none)

/-! ## Fixtures for concrete evaluation -/

def fixtureProject : ProjectRec :=
  { id := 1, name := "Demo", slug := "demo", defaultBrandId := none,
    createdAt := 0, updatedAt := 0 }

def fixtureItem : WorkItemRec :=
  { id := 1, projectId := 1, name := "Icon", slug := "icon",
    itemType := "generic", prompt := "p", brandId := none,
    createdAt := 0, updatedAt := 0 }

def fixturePayload : GenerateJobPayload :=
  { model := "both", count := 2, outputFormat := "png", imageSize := "1K",
    aspect := "", adjustment := "" }

def fixtureJob : JobRec :=
  { id := 1, workItemId := 1, runId := none, status := .queued,
    payload := fixturePayload, errorMessage := none, createdAt := 10,
    startedAt := none, finishedAt := none }

/-- A store holding one project, one work item and exactly one queued
job. -/
def fixtureDB : DB :=
  { brands := [], projects := [fixtureProject], workItems := [fixtureItem],
    jobs := [fixtureJob], runs := [], runImages := [],
    nextJobId := 2, nextRunId := 1, nextImageId := 1 }

/-- The execution context the claim SELECT produces on fixtureDB. -/
def fixtureRow : ClaimRow :=
  { jobId := 1, workItemId := 1, projectSlug := "demo",
    projectName := "Demo", workItemSlug := "icon", workItemName := "Icon",
    prompt := "p", brandSlug := "", brandContent := "",
    payload := fixturePayload }

/-- A worker world where every external step succeeds and the output
directory holds two images, a subdirectory and an unrecognized file. -/
def fixtureWorld : WorkerWorld :=
  { mkdirOutputOk := true, mkdirOutputMsg := "",
    mkdirTempOk := true, mkdirTempMsg := "",
    writeBrandOk := true, writeBrandMsg := "",
    subprocessOk := true, subprocessErrMsg := "", subprocessOut := "",
    readDirOk := true, readDirMsg := "",
    dirEntries := [{ name := "a.png", isDir := false },
      { name := "sub", isDir := true },
      { name := "notes.txt", isDir := false },
      { name := "b.WEBP", isDir := false }],
    relPathOf := fun n => some ("images/demo/icon/run-1/" ++ n),
    imageInsertOk := fun _ => true }

/-- A payload with malformed settings: non-positive count and empty
required selectors. -/
def malformedPayload : GenerateJobPayload :=
  { model := "", count := 0, outputFormat := "", imageSize := "",
    aspect := "", adjustment := "" }

/-- The run materialized for the fixture job. -/
def fixtureRun : RunRec :=
  { id := 1, jobId := 1, workItemId := 1, promptSnapshot := "p",
    settings := fixturePayload, status := .running, errorMessage := none,
    createdAt := 11, finishedAt := none }

/-- The fixture store after the job has been claimed and its run
created. -/
def fixtureDBClaimed : DB :=
  { fixtureDB with
      jobs :=
        [{ fixtureJob with
             status := .running, startedAt := some 11, runId := some 1 }],
      runs := [fixtureRun], nextRunId := 2 }

/-- Projection of a work item onto every column other than prompt and
updated_at. -/
def wiFrame (w : WorkItemRec) :
    Nat × Nat × String × String × String × Option Nat × Nat :=
  (w.id, w.projectId, w.name, w.slug, w.itemType, w.brandId, w.createdAt)

/-- A store with three queued jobs: job 1 enqueued at tick 20, jobs 2 and
3 both at tick 10 (a creation-time tie in insertion order 2 before 3). -/
def fifoDB : DB :=
  { brands := [], projects := [fixtureProject], workItems := [fixtureItem],
    jobs :=
      [{ fixtureJob with id := 1, createdAt := 20 },
       { fixtureJob with id := 2, createdAt := 10 },
       { fixtureJob with id := 3, createdAt := 10 }],
    runs := [], runImages := [],
    nextJobId := 4, nextRunId := 1, nextImageId := 1 }

/-! ## Properties of slug normalization -/

theorem noDD_cons {c : Char} {l : List Char}
    (hhd : ∀ d, l.head? = some d → ¬(c = '-' ∧ d = '-'))
    (hl : noDD l) : noDD (c :: l) := by
  cases l with
  | nil => trivial
  | cons d ds => exact ⟨hhd d rfl, hl⟩

theorem noDD_tail {c : Char} {l : List Char} (h : noDD (c :: l)) : noDD l := by
  cases l with
  | nil => trivial
  | cons d ds => exact h.2

theorem mem_squashRuns {c : Char} :
    ∀ (l : List Char) (b : Bool), c ∈ squashRuns l b →
      isSlugKeep c = true ∨ c = '-' := by
  intro l
  induction l with
  | nil => intro b h; simp [squashRuns] at h
  | cons a as ih =>
    intro b h
    by_cases hk : isSlugKeep a
    · simp only [squashRuns, hk, if_pos] at h
      rcases List.mem_cons.mp h with h | h
      · exact Or.inl (h ▸ hk)
      · exact ih false h
    · simp only [squashRuns, hk] at h
      cases b with
      | true => simpa using ih true (by simpa using h)
      | false =>
        simp only [Bool.false_eq_true, if_false] at h
        rcases List.mem_cons.mp h with h | h
        · exact Or.inr h
        · exact ih true h

theorem squashRuns_true_head {l : List Char} {c : Char}
    (h : (squashRuns l true).head? = some c) : isSlugKeep c = true := by
  induction l with
  | nil => simp [squashRuns] at h
  | cons a as ih =>
    by_cases hk : isSlugKeep a
    · simp only [squashRuns, hk, if_pos, List.head?_cons, Option.some.injEq] at h
      exact h ▸ hk
    · simp only [squashRuns, hk, Bool.false_eq_true, if_false, if_pos] at h
      exact ih h

theorem noDD_squashRuns : ∀ (l : List Char) (b : Bool), noDD (squashRuns l b) := by
  intro l
  induction l with
  | nil => intro b; simp only [squashRuns]; trivial
  | cons a as ih =>
    intro b
    by_cases hk : isSlugKeep a
    · simp only [squashRuns, hk, if_pos]
      refine noDD_cons (fun d hd => ?_) (ih false)
      intro ⟨ha, _⟩
      rw [ha] at hk
      simp [isSlugKeep] at hk
    · simp only [squashRuns, hk, Bool.false_eq_true, if_false]
      cases b with
      | true => simpa using ih true
      | false =>
        simp only [if_false, Bool.false_eq_true]
        refine noDD_cons (fun d hd => ?_) (ih true)
        intro ⟨_, hd'⟩
        have := squashRuns_true_head hd
        rw [hd'] at this
        simp [isSlugKeep] at this

theorem squashRuns_id : ∀ (l : List Char),
    (∀ c ∈ l, isSlugKeep c = true ∨ c = '-') → noDD l →
    squashRuns l false = l := by
  intro l
  induction l with
  | nil => intro _ _; rfl
  | cons a as ih =>
    intro hmem hdd
    by_cases hk : isSlugKeep a
    · simp only [squashRuns, hk, if_pos]
      rw [ih (fun c hc => hmem c (List.mem_cons_of_mem a hc)) (noDD_tail hdd)]
    · have ha : a = '-' := by
        rcases hmem a (List.mem_cons_self a as) with h | h
        · exact absurd h hk
        · exact h
      cases as with
      | nil => simp [squashRuns, hk, ha]
      | cons d ds =>
        have hd : isSlugKeep d = true := by
          rcases hmem d (List.mem_cons_of_mem a (List.mem_cons_self d ds)) with h | h
          · exact h
          · exact absurd ⟨ha, h⟩ hdd.1
        have htail : squashRuns (d :: ds) false = d :: ds :=
          ih (fun c hc => hmem c (List.mem_cons_of_mem a hc)) (noDD_tail hdd)
        simp only [squashRuns, hk, Bool.false_eq_true, if_false, ha, hd, if_pos] at *
        have hds : squashRuns ds false = ds := by
          simpa [squashRuns, hd] using htail
        simp [squashRuns, hd, hds]

theorem head?_dropWhile {p : Char → Bool} {l : List Char} {c : Char}
    (h : (l.dropWhile p).head? = some c) : p c = false := by
  induction l with
  | nil => simp [List.dropWhile] at h
  | cons a as ih =>
    rw [List.dropWhile_cons] at h
    by_cases hp : p a
    · rw [if_pos hp] at h; exact ih h
    · rw [if_neg hp] at h
      simp only [List.head?_cons, Option.some.injEq] at h
      subst h
      simpa using hp

theorem dropWhile_id_of_head {p : Char → Bool} {l : List Char}
    (h : ∀ c, l.head? = some c → p c = false) : l.dropWhile p = l := by
  cases l with
  | nil => rfl
  | cons a as =>
    rw [List.dropWhile_cons, if_neg]
    simp [h a rfl]

theorem dropWhile_eq_self_of_mem {p : Char → Bool} {l : List Char}
    (h : ∀ c ∈ l, p c = false) : l.dropWhile p = l := by
  cases l with
  | nil => rfl
  | cons a as =>
    rw [List.dropWhile_cons, if_neg]
    simp [h a (List.mem_cons_self a as)]

theorem noDD_append_right : ∀ (l1 l2 : List Char), noDD (l1 ++ l2) → noDD l2 := by
  intro l1
  induction l1 with
  | nil => intro l2 h; exact h
  | cons a as ih => intro l2 h; exact ih l2 (noDD_tail h)

theorem noDD_append_left : ∀ (l1 l2 : List Char), noDD (l1 ++ l2) → noDD l1 := by
  intro l1
  induction l1 with
  | nil => intro _ _; trivial
  | cons a as ih =>
    intro l2 h
    cases as with
    | nil => trivial
    | cons b bs =>
      exact ⟨h.1, ih l2 h.2⟩

theorem map_id_of_mem {f : Char → Char} {l : List Char}
    (h : ∀ c ∈ l, f c = c) : l.map f = l := by
  induction l with
  | nil => rfl
  | cons a as ih =>
    simp only [List.map_cons, h a (List.mem_cons_self a as)]
    rw [ih (fun c hc => h c (List.mem_cons_of_mem a hc))]

theorem trimSpaceL_id {l : List Char}
    (h : ∀ c ∈ l, isSpaceChar c = false) : trimSpaceL l = l := by
  unfold trimSpaceL
  rw [dropWhile_eq_self_of_mem h,
    dropWhile_eq_self_of_mem (fun c hc => h c (List.mem_reverse.mp hc)),
    List.reverse_reverse]

theorem lowerChar_id {c : Char} (h : isSlugKeep c = true ∨ c = '-') :
    lowerChar c = c := by
  unfold lowerChar
  rw [if_neg]
  rcases h with h | h
  · simp only [isSlugKeep, Bool.or_eq_true, Bool.and_eq_true, decide_eq_true_eq] at h
    omega
  · subst h
    intro hc
    revert hc
    decide

theorem isSpaceChar_slug {c : Char} (h : isSlugKeep c = true ∨ c = '-') :
    isSpaceChar c = false := by
  rcases h with h | h
  · simp only [isSlugKeep, Bool.or_eq_true, Bool.and_eq_true, decide_eq_true_eq] at h
    simp only [isSpaceChar, Bool.or_eq_false_iff, decide_eq_false_iff_not]
    omega
  · subst h
    decide

/-- Decomposition of a dash-trimmed list: the trimmed result is a prefix of
the left-trimmed list. -/
theorem trimDashes_decomp (u : List Char) :
    trimDashes u ++ ((u.dropWhile isDash).reverse.takeWhile isDash).reverse
      = u.dropWhile isDash := by
  unfold trimDashes
  have h := List.takeWhile_append_dropWhile
    (p := isDash) (l := (u.dropWhile isDash).reverse)
  calc ((u.dropWhile isDash).reverse.dropWhile isDash).reverse ++
        ((u.dropWhile isDash).reverse.takeWhile isDash).reverse
      = (((u.dropWhile isDash).reverse.takeWhile isDash) ++
          ((u.dropWhile isDash).reverse.dropWhile isDash)).reverse := by
        rw [List.reverse_append]
    _ = (u.dropWhile isDash).reverse.reverse := by rw [h]
    _ = u.dropWhile isDash := List.reverse_reverse _

theorem mem_trimDashes {c : Char} {u : List Char} (h : c ∈ trimDashes u) :
    c ∈ u := by
  have h1 : c ∈ u.dropWhile isDash := by
    have := trimDashes_decomp u
    rw [← this]
    exact List.mem_append_left _ h
  exact (List.dropWhile_sublist (p := isDash) (l := u)).subset h1

theorem noDD_trimDashes {u : List Char} (h : noDD u) : noDD (trimDashes u) := by
  have h1 : noDD (u.dropWhile isDash) := by
    have hdec := List.takeWhile_append_dropWhile (p := isDash) (l := u)
    exact noDD_append_right _ _ (hdec ▸ h)
  exact noDD_append_left _ _ ((trimDashes_decomp u) ▸ h1)

theorem head?_trimDashes {c : Char} {u : List Char}
    (h : (trimDashes u).head? = some c) : isDash c = false := by
  have hdec := trimDashes_decomp u
  cases ht : trimDashes u with
  | nil => rw [ht] at h; simp at h
  | cons a ts =>
    rw [ht] at h
    simp only [List.head?_cons, Option.some.injEq] at h
    rw [ht] at hdec
    have hu : (u.dropWhile isDash).head? = some a := by
      rw [← hdec]; rfl
    rw [← h]
    exact head?_dropWhile hu

theorem reverse_trimDashes (u : List Char) :
    (trimDashes u).reverse = (u.dropWhile isDash).reverse.dropWhile isDash := by
  unfold trimDashes
  rw [List.reverse_reverse]

theorem trimDashes_id {t : List Char}
    (hh : ∀ c, t.head? = some c → isDash c = false)
    (hl : ∀ c, t.reverse.head? = some c → isDash c = false) :
    trimDashes t = t := by
  unfold trimDashes
  rw [dropWhile_id_of_head hh, dropWhile_id_of_head hl, List.reverse_reverse]

/-- Output characterization used for idempotence: each character of a slug
is a kept character or a dash. -/
theorem mem_slugifyL {c : Char} {l : List Char} (h : c ∈ slugifyL l) :
    isSlugKeep c = true ∨ c = '-' := by
  exact mem_squashRuns _ _ (mem_trimDashes h)

theorem noDD_slugifyL (l : List Char) : noDD (slugifyL l) :=
  noDD_trimDashes (noDD_squashRuns _ _)

theorem head?_slugifyL {c : Char} {l : List Char}
    (h : (slugifyL l).head? = some c) : isDash c = false :=
  head?_trimDashes h

theorem head?_reverse_slugifyL {c : Char} {l : List Char}
    (h : (slugifyL l).reverse.head? = some c) : isDash c = false := by
  rw [slugifyL, reverse_trimDashes] at h
  exact head?_dropWhile h

theorem slugifyL_idem (l : List Char) : slugifyL (slugifyL l) = slugifyL l := by
  have hmem : ∀ c ∈ slugifyL l, isSlugKeep c = true ∨ c = '-' :=
    fun c hc => mem_slugifyL hc
  have h1 : trimSpaceL (slugifyL l) = slugifyL l :=
    trimSpaceL_id (fun c hc => isSpaceChar_slug (hmem c hc))
  have h2 : (slugifyL l).map lowerChar = slugifyL l :=
    map_id_of_mem (fun c hc => lowerChar_id (hmem c hc))
  have h3 : squashRuns (slugifyL l) false = slugifyL l :=
    squashRuns_id _ hmem (noDD_slugifyL l)
  conv_lhs => rw [slugifyL, h1, h2, h3]
  exact trimDashes_id (fun c hc => head?_slugifyL hc)
    (fun c hc => head?_reverse_slugifyL hc)

theorem Slugify_idem (s : String) : Slugify (Slugify s) = Slugify s :=
  congrArg String.mk (slugifyL_idem s.data)

/-! ## Claim C9: slug normalization before lookups -/

/-- C9: Slugify is idempotent, and because GetBrand, GetProject and
GetWorkItem each slugify their slug arguments before the lookup, looking
up a raw string and its slugified form give identical results, so lookup
is case- and punctuation-insensitive by construction. -/
theorem lookups_slug_normalized :
    (∀ s, Slugify (Slugify s) = Slugify s) ∧
    (∀ db s, GetBrand db s = GetBrand db (Slugify s)) ∧
    (∀ db s, GetProject db s = GetProject db (Slugify s)) ∧
    (∀ db ps islug, GetWorkItem db ps islug =
      GetWorkItem db (Slugify ps) (Slugify islug)) := by
  refine ⟨Slugify_idem, fun db s => ?_, fun db s => ?_,
    fun db ps islug => ?_⟩
  · simp only [GetBrand, Slugify_idem]
  · simp only [GetProject, Slugify_idem]
  · simp only [GetWorkItem, Slugify_idem]

/-! ## Claim C6: run uniqueness -/

/-- C6: for a job that already has a run, a second CreateRun fails with
the uniqueness violation and leaves the database, hence the original run
row, entirely unchanged. -/
theorem createRun_second_fails (db : DB) (jobId workItemId : Nat)
    (ps : String) (st : GenerateJobPayload) (now : Nat)
    (r : RunRec) (hr : r ∈ db.runs) (hjob : r.jobId = jobId) :
    (CreateRun db jobId workItemId ps st now).1 = db ∧
    (CreateRun db jobId workItemId ps st now).2 =
      .error "UNIQUE constraint failed: runs.job_id" := by
  have hany : db.runs.any (fun r2 => r2.jobId == jobId) = true := by
    simp only [List.any_eq_true]
    exact ⟨r, hr, by simp [hjob]⟩
  simp [CreateRun, hany]

/-- Witness for C6 on the claimed fixture store. -/
theorem createRun_second_fails_witness :
    (CreateRun fixtureDBClaimed 1 1 "p" fixturePayload 12).1 =
      fixtureDBClaimed ∧
    (CreateRun fixtureDBClaimed 1 1 "p" fixturePayload 12).2 =
      .error "UNIQUE constraint failed: runs.job_id" :=
  createRun_second_fails fixtureDBClaimed 1 1 "p" fixturePayload 12
    fixtureRun (by decide) rfl

/-! ## Claim C7: snapshot isolation under prompt edits -/

theorem map_wiFrame_update (l : List WorkItemRec) (c : WorkItemRec → Bool)
    (p : String) (now : Nat) :
    (l.map (fun w =>
      if c w then { w with prompt := p, updatedAt := now } else w)).map
        wiFrame = l.map wiFrame := by
  induction l with
  | nil => rfl
  | cons a as ih => by_cases h : c a <;> simp [h, wiFrame, ih]

/-- C7: UpdateWorkItemPrompt never touches the runs table — so the
prompt_snapshot and settings_json of every run, in particular of any run
belonging to an already-claimed job, are unchanged — leaves every other
table unchanged as well, and in the work-items table changes only the
prompt and updated_at columns of the matched items. -/
theorem updatePrompt_snapshot_frame (db : DB) (ps islug prompt : String)
    (now : Nat) :
    ((UpdateWorkItemPrompt db ps islug prompt now).1.runs = db.runs) ∧
    ((UpdateWorkItemPrompt db ps islug prompt now).1.brands = db.brands) ∧
    ((UpdateWorkItemPrompt db ps islug prompt now).1.projects =
      db.projects) ∧
    ((UpdateWorkItemPrompt db ps islug prompt now).1.jobs = db.jobs) ∧
    ((UpdateWorkItemPrompt db ps islug prompt now).1.runImages =
      db.runImages) ∧
    ((UpdateWorkItemPrompt db ps islug prompt now).1.workItems.map wiFrame
      = db.workItems.map wiFrame) := by
  unfold UpdateWorkItemPrompt
  by_cases h : goTrimSpace prompt = ""
  · simp [h]
  · rw [if_neg h]
    refine ⟨rfl, rfl, rfl, rfl, rfl, ?_⟩
    simp only [List.map_map]
    refine List.map_congr_left (fun a _ => ?_)
    by_cases hc :
        (a.slug == Slugify islug &&
          ((db.projects.find? (fun pr => pr.id == a.projectId)).any
            (fun pr => pr.slug == Slugify ps))) = true <;>
      simp [Function.comp, hc, wiFrame]

/-! ## Claim C8: temporary brand directory cleanup -/

/-- C8: after any worker cycle, whatever the outcomes of the external
steps (subprocess success, failure or timeout, and the branch where
writing the brand file fails), the temporary brand directory does not
exist: the cleanup runs on every exit path that created it. -/
theorem brand_dir_removed (db : DB) (w : WorkerWorld) (now : Nat) :
    (processNextJob db w now).fs.brandDirExists = false := by
  rcases hc : ClaimNextQueuedJob db now with ⟨db0, ro⟩
  cases ro with
  | none => simp [processNextJob, hc]
  | some job =>
    rcases hcr : CreateRun db0 job.jobId job.workItemId
        (mergedPrompt job.prompt (normalizePayload job.payload).adjustment)
        (normalizePayload job.payload) now with ⟨db1, res⟩
    cases res with
    | error e => simp [processNextJob, hc, hcr]
    | ok runId =>
      simp only [processNextJob, cycleFromSubprocess, hc, hcr,
        cleanupBrandDir]
      split_ifs <;> rfl

/-! ## Claim C3: enqueue failure modes -/

/-- C3 counterexample: against an existing work item, a payload with
malformed settings (count 0, empty model, format and size) is not
rejected with a ValidationError; CreateGenerateJob succeeds and returns a
queued job with the defaults substituted. -/
theorem createGenerateJob_accepts_malformed :
    (CreateGenerateJob fixtureDB "demo" "icon" malformedPayload 20).2 =
      .ok { id := 2, workItemId := 1, runId := none, status := .queued,
            payload := { model := "both", count := 1,
                         outputFormat := "png", imageSize := "1K",
                         aspect := "", adjustment := "" },
            errorMessage := none, createdAt := 20, startedAt := none,
            finishedAt := none } := by
  decide

/-- C3 amended: CreateGenerateJob fails with NotFound and creates no job
row (ListJobs unchanged for every limit) when the work item does not
exist; when the work item exists it performs no settings validation —
the payload is normalized by defaulting and a queued job is always
created. -/
theorem createGenerateJob_spec (db : DB) (ps islug : String)
    (payload : GenerateJobPayload) (now : Nat) :
    ((∃ e, GetWorkItem db ps islug = Except.error e) →
      (CreateGenerateJob db ps islug payload now).1 = db ∧
      (∃ e, (CreateGenerateJob db ps islug payload now).2 =
        Except.error e) ∧
      ∀ lim, ListJobs (CreateGenerateJob db ps islug payload now).1 lim =
        ListJobs db lim) ∧
    (∀ item, GetWorkItem db ps islug = Except.ok item →
      ∃ j, (CreateGenerateJob db ps islug payload now).2 = Except.ok j ∧
        j.status = JStatus.queued ∧ j.payload = normalizePayload payload ∧
        (CreateGenerateJob db ps islug payload now).1.jobs =
          db.jobs ++ [j]) := by
  unfold CreateGenerateJob
  cases h : GetWorkItem db ps islug with
  | error e =>
    exact ⟨fun _ => ⟨rfl, ⟨e, rfl⟩, fun _ => rfl⟩,
      fun item hitem => by simp at hitem⟩
  | ok item =>
    exact ⟨fun ⟨e, he⟩ => by simp at he,
      fun item2 hitem => ⟨_, rfl, rfl, rfl, rfl⟩⟩

/-- Witness for C3 exercising both branches: a missing work item slug
fails with no change to the jobs listing, and an existing one yields a
queued job appended to the jobs table. -/
theorem createGenerateJob_spec_witness :
    ((CreateGenerateJob fixtureDB "demo" "missing" fixturePayload 20).1 =
        fixtureDB ∧
      (∃ e, (CreateGenerateJob fixtureDB "demo" "missing" fixturePayload
        20).2 = Except.error e) ∧
      ∀ lim, ListJobs (CreateGenerateJob fixtureDB "demo" "missing"
        fixturePayload 20).1 lim = ListJobs fixtureDB lim) ∧
    (∃ j, (CreateGenerateJob fixtureDB "demo" "icon" fixturePayload 20).2 =
        Except.ok j ∧
      j.status = JStatus.queued ∧
      j.payload = normalizePayload fixturePayload ∧
      (CreateGenerateJob fixtureDB "demo" "icon" fixturePayload 20).1.jobs =
        fixtureDB.jobs ++ [j]) :=
  ⟨(createGenerateJob_spec fixtureDB "demo" "missing" fixturePayload 20).1
      ⟨"ErrNotExist", by decide⟩,
    (createGenerateJob_spec fixtureDB "demo" "icon" fixturePayload 20).2
      fixtureItem (by decide)⟩

/-! ## Claim C1: claim exclusivity under concurrency -/

/-- C1: the failure of claim exclusivity at the failing input.  Against a
store with exactly one queued job, two invocations of ClaimNextQueuedJob
interleaved at statement granularity (both SELECT statements run before
either conditional UPDATE, an interleaving the per-statement store mutex
permits) BOTH return a non-nil execution context for the same job: the
source never reads the affected-row count of its conditional UPDATE, and
the second, zero-row UPDATE changes nothing and reports no error (third
conjunct), so nothing signals the second claimant that it lost. -/
theorem claim_not_exclusive :
    (claimInterleaved fixtureDB 11).1 = some fixtureRow ∧
    (claimInterleaved fixtureDB 11).2.1 = some fixtureRow ∧
    (claimInterleaved fixtureDB 11).2.2 = claimUpdate fixtureDB 1 11 := by
  decide

/-! ## Claim C2: every claimed job reaches a terminal state -/

theorem find?_map_pred {α : Type} (f : α → α) (p : α → Bool)
    (h : ∀ x, p (f x) = p x) (l : List α) :
    (l.map f).find? p = (l.find? p).map f := by
  induction l with
  | nil => rfl
  | cons a as ih =>
    rw [List.map_cons]
    cases hp : p a with
    | true =>
      rw [List.find?_cons_of_pos _ (show p (f a) = true by rw [h a]; exact hp),
        List.find?_cons_of_pos _ hp]
      rfl
    | false =>
      rw [List.find?_cons_of_neg _
          (show ¬p (f a) = true by rw [h a]; simp [hp]),
        List.find?_cons_of_neg _ (by simp [hp]), ih]

theorem find?_pres_claimUpdate (db : DB) (tid now jid : Nat) :
    (claimUpdate db tid now).jobs.find? (fun j => j.id == jid) =
      (db.jobs.find? (fun j => j.id == jid)).map (fun j =>
        if j.id == tid && j.status == JStatus.queued then
          { j with status := .running, startedAt := some now } else j) := by
  unfold claimUpdate
  refine find?_map_pred _ _ (fun x => ?_) _
  by_cases hc : (x.id == tid && x.status == JStatus.queued) = true <;>
    simp [hc]

theorem find?_pres_setJobRunId (db : DB) (tid rid jid : Nat) :
    (setJobRunId db tid rid).jobs.find? (fun j => j.id == jid) =
      (db.jobs.find? (fun j => j.id == jid)).map (fun j =>
        if j.id == tid then { j with runId := some rid } else j) := by
  unfold setJobRunId
  refine find?_map_pred _ _ (fun x => ?_) _
  by_cases hc : (x.id == tid) = true <;> simp [hc]

theorem jobStatus?_MarkJobFailed_hit (db : DB) (jid : Nat) (msg : String)
    (now : Nat)
    (h : (db.jobs.find? (fun j => j.id == jid)).isSome = true) :
    jobStatus? (MarkJobFailed db jid msg now) jid = some .failed := by
  unfold jobStatus? MarkJobFailed
  rw [show ({ db with jobs := db.jobs.map (fun j =>
      if j.id == jid then
        { j with status := .failed,
                 errorMessage := some (goTrimSpace msg),
                 finishedAt := some now } else j) } : DB).jobs =
    db.jobs.map (fun j =>
      if j.id == jid then
        { j with status := .failed,
                 errorMessage := some (goTrimSpace msg),
                 finishedAt := some now } else j) from rfl]
  rw [find?_map_pred _ _ (fun x => by
    by_cases hc : (x.id == jid) = true <;> simp [hc])]
  obtain ⟨j, hj⟩ := Option.isSome_iff_exists.mp h
  have hid : j.id = jid := by simpa using List.find?_some hj
  rw [hj]
  simp [hid]

theorem jobStatus?_MarkJobSucceeded_hit (db : DB) (jid now : Nat)
    (h : (db.jobs.find? (fun j => j.id == jid)).isSome = true) :
    jobStatus? (MarkJobSucceeded db jid now) jid = some .succeeded := by
  unfold jobStatus? MarkJobSucceeded
  rw [show ({ db with jobs := db.jobs.map (fun j =>
      if j.id == jid then
        { j with status := .succeeded, finishedAt := some now } else j) }
      : DB).jobs =
    db.jobs.map (fun j =>
      if j.id == jid then
        { j with status := .succeeded, finishedAt := some now } else j)
    from rfl]
  rw [find?_map_pred _ _ (fun x => by
    by_cases hc : (x.id == jid) = true <;> simp [hc])]
  obtain ⟨j, hj⟩ := Option.isSome_iff_exists.mp h
  have hid : j.id = jid := by simpa using List.find?_some hj
  rw [hj]
  simp [hid]

theorem harvest_jobs (w : WorkerWorld) (rid now : Nat) :
    ∀ (es : List DirEntry) (i : Nat) (db : DB),
      (harvest w rid now db es i).jobs = db.jobs := by
  intro es
  induction es with
  | nil => intro i db; rfl
  | cons e es ih =>
    intro i db
    unfold harvest
    by_cases hd : e.isDir = true
    · simp only [hd, if_true]
      exact ih _ _
    · simp only [hd, if_false, Bool.false_eq_true]
      by_cases hext : isRecognizedExt (lowerStr (fileExt e.name)) = true
      · simp only [hext, if_true]
        cases hrel : w.relPathOf e.name with
        | none => exact ih _ _
        | some rel =>
          by_cases hins : w.imageInsertOk i = true
          · simp only [hins, if_true]
            exact ih _ _
          · simp only [hins, if_false, Bool.false_eq_true]
            exact ih _ _
      · simp only [hext, if_false, Bool.false_eq_true]
        exact ih _ _

theorem harvest_runs (w : WorkerWorld) (rid now : Nat) :
    ∀ (es : List DirEntry) (i : Nat) (db : DB),
      (harvest w rid now db es i).runs = db.runs := by
  intro es
  induction es with
  | nil => intro i db; rfl
  | cons e es ih =>
    intro i db
    unfold harvest
    by_cases hd : e.isDir = true
    · simp only [hd, if_true]
      exact ih _ _
    · simp only [hd, if_false, Bool.false_eq_true]
      by_cases hext : isRecognizedExt (lowerStr (fileExt e.name)) = true
      · simp only [hext, if_true]
        cases hrel : w.relPathOf e.name with
        | none => exact ih _ _
        | some rel =>
          by_cases hins : w.imageInsertOk i = true
          · simp only [hins, if_true]
            exact ih _ _
          · simp only [hins, if_false, Bool.false_eq_true]
            exact ih _ _
      · simp only [hext, if_false, Bool.false_eq_true]
        exact ih _ _

theorem firstMin_mem {l : List JobRec} {j : JobRec}
    (h : firstMinByCreatedAt l = some j) : j ∈ l := by
  induction l generalizing j with
  | nil => cases h
  | cons a as ih =>
    unfold firstMinByCreatedAt at h
    cases hm : firstMinByCreatedAt as with
    | none =>
      rw [hm] at h
      dsimp only at h
      cases h
      exact List.mem_cons_self a as
    | some m =>
      rw [hm] at h
      dsimp only at h
      by_cases hlt : m.createdAt < a.createdAt
      · rw [if_pos hlt] at h
        cases h
        exact List.mem_cons_of_mem a (ih hm)
      · rw [if_neg hlt] at h
        cases h
        exact List.mem_cons_self a as

theorem joinClaimRow_jobId {db : DB} {j : JobRec} {row : ClaimRow}
    (h : joinClaimRow db j = some row) : row.jobId = j.id := by
  unfold joinClaimRow at h
  cases hfw : db.workItems.find? (fun w => w.id == j.workItemId) with
  | none => rw [hfw] at h; cases h
  | some wi =>
    rw [hfw] at h
    dsimp only at h
    cases hfp : db.projects.find? (fun p => p.id == wi.projectId) with
    | none => rw [hfp] at h; cases h
    | some p =>
      rw [hfp] at h
      dsimp only at h
      simp only [Option.some.injEq] at h
      subst h
      rfl

theorem claimSelect_origin {db : DB} {row : ClaimRow}
    (h : claimSelect db = some row) :
    ∃ j ∈ db.jobs, j.status = .queued ∧ row.jobId = j.id := by
  unfold claimSelect at h
  cases hm : firstMinByCreatedAt (claimableJobs db) with
  | none => rw [hm] at h; cases h
  | some j =>
    rw [hm] at h
    have hjm := firstMin_mem hm
    obtain ⟨hmem, hpred⟩ := List.mem_filter.mp hjm
    simp only [Bool.and_eq_true, beq_iff_eq] at hpred
    exact ⟨j, hmem, hpred.1, joinClaimRow_jobId h⟩

theorem createRun_error_inv {db : DB} {a b : Nat} {ps : String}
    {st : GenerateJobPayload} {now : Nat} {db1 : DB} {e : String}
    (h : CreateRun db a b ps st now = (db1, .error e)) : db1 = db := by
  unfold CreateRun at h
  by_cases hc : db.runs.any (fun r => r.jobId == a) = true
  · rw [if_pos hc] at h
    simp only [Prod.mk.injEq] at h
    exact h.1.symm
  · rw [if_neg hc] at h
    simp at h

theorem createRun_ok_inv {db : DB} {a b : Nat} {ps : String}
    {st : GenerateJobPayload} {now : Nat} {db1 : DB} {runId : Nat}
    (h : CreateRun db a b ps st now = (db1, .ok runId)) :
    runId = db.nextRunId ∧
    db1 = setJobRunId (runInsert db a b ps st now) a db.nextRunId := by
  unfold CreateRun at h
  by_cases hc : db.runs.any (fun r => r.jobId == a) = true
  · rw [if_pos hc] at h
    simp at h
  · rw [if_neg hc] at h
    simp only [Prod.mk.injEq, Except.ok.injEq] at h
    exact ⟨h.2.symm, h.1.symm⟩

/-- The runs added along a terminal-marking path are terminal, the old
ones are untouched. -/
theorem new_runs_terminal {old : List RunRec} {nr : RunRec} {runId : Nat}
    (hold : ∀ r ∈ old, r.id < runId) (_hnr : nr.id = runId)
    (g : RunRec → RunRec)
    (hg1 : ∀ r, r.id ≠ runId → g r = r)
    (hg2 : (g nr).status = .succeeded ∨ (g nr).status = .failed) :
    ∀ r ∈ (old ++ [nr]).map g, r ∉ old →
      (r.status = .succeeded ∨ r.status = .failed) := by
  intro r hr hnot
  rw [List.map_append] at hr
  rcases List.mem_append.mp hr with hmem | hmem
  · obtain ⟨x, hx, hgx⟩ := List.mem_map.mp hmem
    rw [hg1 x (Nat.ne_of_lt (hold x hx))] at hgx
    exact absurd (hgx ▸ hx) hnot
  · simp only [List.map_cons, List.map_nil, List.mem_singleton] at hmem
    subst hmem
    exact hg2

/-- C2: every job the worker cycle claims (transitions to running) has a
terminal status — succeeded or failed — by the time processNextJob
returns, and so does every run the cycle created: a completed cycle never
leaves its job or run in running. -/
theorem worker_cycle_terminal (db : DB) (w : WorkerWorld) (now : Nat)
    (hruns : WFruns db)
    (row : ClaimRow) (hclaim : claimSelect db = some row) :
    (jobStatus? (processNextJob db w now).db row.jobId = some .succeeded ∨
      jobStatus? (processNextJob db w now).db row.jobId = some .failed) ∧
    (∀ r ∈ (processNextJob db w now).db.runs, r ∉ db.runs →
      (r.status = .succeeded ∨ r.status = .failed)) := by
  obtain ⟨j, hjmem, hjq, hjid⟩ := claimSelect_origin hclaim
  have hcnq : ClaimNextQueuedJob db now =
      (claimUpdate db row.jobId now, some row) := by
    unfold ClaimNextQueuedJob
    rw [hclaim]
  have hex : (db.jobs.find? (fun k => k.id == row.jobId)).isSome = true := by
    rw [List.find?_isSome]
    exact ⟨j, hjmem, by simp [hjid]⟩
  obtain ⟨j0, hj0⟩ := Option.isSome_iff_exists.mp hex
  have hex0 : ((claimUpdate db row.jobId now).jobs.find?
      (fun k => k.id == row.jobId)).isSome = true := by
    rw [find?_pres_claimUpdate, hj0]
    rfl
  rcases hcr : CreateRun (claimUpdate db row.jobId now) row.jobId
      row.workItemId
      (mergedPrompt row.prompt (normalizePayload row.payload).adjustment)
      (normalizePayload row.payload) now with ⟨db1, res⟩
  cases res with
  | error e =>
    have hdb1 : db1 = claimUpdate db row.jobId now := createRun_error_inv hcr
    simp only [processNextJob, hcnq, hcr]
    constructor
    · exact Or.inr (jobStatus?_MarkJobFailed_hit db1 row.jobId e now
        (hdb1 ▸ hex0))
    · intro r hr hnot
      rw [show (MarkJobFailed db1 row.jobId e now).runs = db1.runs from rfl,
        hdb1] at hr
      exact absurd hr hnot
  | ok runId =>
    obtain ⟨hrid, hdb1⟩ := createRun_ok_inv hcr
    have hex1 : (db1.jobs.find? (fun k => k.id == row.jobId)).isSome
        = true := by
      rw [hdb1, find?_pres_setJobRunId]
      rw [show (runInsert (claimUpdate db row.jobId now) row.jobId
          row.workItemId
          (mergedPrompt row.prompt (normalizePayload row.payload).adjustment)
          (normalizePayload row.payload) now).jobs =
        (claimUpdate db row.jobId now).jobs from rfl]
      rw [find?_pres_claimUpdate, hj0]
      rfl
    have hrunsEq : db1.runs = db.runs ++
        [{ id := db.nextRunId, jobId := row.jobId,
           workItemId := row.workItemId,
           promptSnapshot :=
             mergedPrompt row.prompt (normalizePayload row.payload).adjustment,
           settings := normalizePayload row.payload, status := .running,
           errorMessage := none, createdAt := now, finishedAt := none }] := by
      rw [hdb1]
      rfl
    have hold : ∀ r ∈ db.runs, r.id < runId := by
      rw [hrid]
      exact fun r hr =>
        show r.id < (claimUpdate db row.jobId now).nextRunId from hruns r hr
    have hnr :
        ({ id := db.nextRunId, jobId := row.jobId,
           workItemId := row.workItemId,
           promptSnapshot :=
             mergedPrompt row.prompt (normalizePayload row.payload).adjustment,
           settings := normalizePayload row.payload, status := .running,
           errorMessage := none, createdAt := now,
           finishedAt := none } : RunRec).id = runId := by
      rw [hrid]
      rfl
    have hfailTerm : ∀ msg : String,
        jobStatus? (MarkJobFailed (MarkRunFailed db1 runId msg now)
          row.jobId msg now) row.jobId = some .failed := by
      intro msg
      exact jobStatus?_MarkJobFailed_hit (MarkRunFailed db1 runId msg now)
        row.jobId msg now hex1
    have hfailRuns : ∀ msg : String,
        ∀ r ∈ (MarkJobFailed (MarkRunFailed db1 runId msg now)
          row.jobId msg now).runs, r ∉ db.runs →
          (r.status = .succeeded ∨ r.status = .failed) := by
      intro msg
      rw [show (MarkJobFailed (MarkRunFailed db1 runId msg now)
          row.jobId msg now).runs = db1.runs.map (fun r =>
        if r.id == runId then
          { r with status := .failed,
                   errorMessage := some (goTrimSpace msg),
                   finishedAt := some now } else r) from rfl, hrunsEq]
      refine new_runs_terminal hold hnr _ (fun r hrne => ?_) ?_
      · simp [Nat.ne_of_lt, hrne]
      · rw [hnr]
        simp
    simp only [processNextJob, cycleFromSubprocess, hcnq, hcr]
    split_ifs
    all_goals try exact ⟨Or.inr (hfailTerm _), hfailRuns _⟩
    all_goals {
      constructor
      · refine Or.inl (jobStatus?_MarkJobSucceeded_hit
          (MarkRunSucceeded (harvest w runId now db1 w.dirEntries 0)
            runId now) row.jobId now ?_)
        rw [show (MarkRunSucceeded (harvest w runId now db1 w.dirEntries 0)
            runId now).jobs =
          (harvest w runId now db1 w.dirEntries 0).jobs from rfl]
        rw [harvest_jobs]
        exact hex1
      · intro r hr hnot
        rw [show (MarkJobSucceeded (MarkRunSucceeded
            (harvest w runId now db1 w.dirEntries 0) runId now)
            row.jobId now).runs =
          (harvest w runId now db1 w.dirEntries 0).runs.map (fun r =>
            if r.id == runId then
              { r with status := .succeeded, finishedAt := some now }
            else r) from rfl, harvest_runs, hrunsEq] at hr
        refine new_runs_terminal hold hnr _ (fun r2 hrne => ?_) ?_ r hr hnot
        · simp [hrne]
        · rw [hnr]
          simp
    }

/-- Witness for C2 on the fixture store with the all-success worker
world. -/
theorem worker_cycle_terminal_witness :
    ((jobStatus? (processNextJob fixtureDB fixtureWorld 11).db
        fixtureRow.jobId = some .succeeded ∨
      jobStatus? (processNextJob fixtureDB fixtureWorld 11).db
        fixtureRow.jobId = some .failed) ∧
    (∀ r ∈ (processNextJob fixtureDB fixtureWorld 11).db.runs,
      r ∉ fixtureDB.runs →
        (r.status = .succeeded ∨ r.status = .failed))) :=
  worker_cycle_terminal fixtureDB fixtureWorld 11
    (by intro r hr; simp [fixtureDB] at hr) fixtureRow (by decide)

/-! ## Claim C10: harvesting contract -/

/-- Characterization of the harvesting loop: the run_images rows it
appends are exactly those described by harvestExpected over the indexed
entries. -/
theorem harvest_images_spec (w : WorkerWorld) (runId now : Nat) :
    ∀ (es : List DirEntry) (i : Nat) (db : DB),
      (harvest w runId now db es i).runImages.map imageData =
        db.runImages.map imageData ++
          harvestExpected w runId (List.enumFrom i es) := by
  intro es
  induction es with
  | nil => intro i db; simp [harvest, harvestExpected]
  | cons e es ih =>
    intro i db
    rw [show List.enumFrom i (e :: es) = (i, e) :: List.enumFrom (i+1) es
      from rfl]
    unfold harvest
    by_cases hd : e.isDir = true
    · rw [if_pos hd, ih]
      unfold harvestExpected
      rw [List.filterMap_cons]
      dsimp only
      rw [if_pos hd]
    · rw [if_neg hd]
      by_cases hext : isRecognizedExt (lowerStr (fileExt e.name)) = true
      · rw [if_pos hext]
        cases hrel : w.relPathOf e.name with
        | none =>
          dsimp only
          rw [ih]
          unfold harvestExpected
          rw [List.filterMap_cons]
          dsimp only
          rw [if_neg hd]
          by_cases hins : w.imageInsertOk i = true
          · rw [hrel]
            simp [hext, hins]
          · simp [hext, hins]
        | some rel =>
          dsimp only
          by_cases hins : w.imageInsertOk i = true
          · rw [if_pos hins, ih]
            unfold harvestExpected
            rw [List.filterMap_cons]
            dsimp only
            rw [if_neg hd, hrel]
            simp only [hext, hins, Bool.and_self, if_pos, Option.map_some]
            rw [show (AddRunImage db runId e.name rel
                (stripDot (lowerStr (fileExt e.name))) now).runImages =
              db.runImages ++
                [{ id := db.nextImageId, runId := runId, filename := e.name,
                   relPath := rel,
                   format := stripDot (lowerStr (fileExt e.name)),
                   createdAt := now }] from rfl]
            rw [List.map_append]
            simp [imageData, harvestExpected]
          · rw [if_neg hins, ih]
            unfold harvestExpected
            rw [List.filterMap_cons]
            dsimp only
            rw [if_neg hd]
            simp [hins]
      · rw [if_neg hext, ih]
        unfold harvestExpected
        rw [List.filterMap_cons]
        dsimp only
        rw [if_neg hd]
        simp [hext]

/-- C10: on the all-external-steps-succeed path of a worker cycle, the
run_images rows recorded are exactly the non-directory entries of the
output directory with a recognized lowercased extension whose
relative-path computation and insert succeed; each row stores the
oracle-computed root-relative path and the extension without its dot as
format, and a per-entry failure only skips that entry. -/
theorem worker_harvest_exact (db : DB) (w : WorkerWorld) (now : Nat)
    (row : ClaimRow) (hclaim : claimSelect db = some row)
    (hnorun : db.runs.any (fun r => r.jobId == row.jobId) = false)
    (hmk : w.mkdirOutputOk = true)
    (hbrand : goTrimSpace row.brandContent = "" ∨
      (w.mkdirTempOk = true ∧ w.writeBrandOk = true))
    (hsub : w.subprocessOk = true) (hread : w.readDirOk = true) :
    (processNextJob db w now).db.runImages.map imageData =
      db.runImages.map imageData ++
        harvestExpected w db.nextRunId (List.enumFrom 0 w.dirEntries) := by
  have hcnq : ClaimNextQueuedJob db now =
      (claimUpdate db row.jobId now, some row) := by
    unfold ClaimNextQueuedJob
    rw [hclaim]
  have hcr : CreateRun (claimUpdate db row.jobId now) row.jobId
      row.workItemId
      (mergedPrompt row.prompt (normalizePayload row.payload).adjustment)
      (normalizePayload row.payload) now =
      (setJobRunId (runInsert (claimUpdate db row.jobId now) row.jobId
          row.workItemId
          (mergedPrompt row.prompt (normalizePayload row.payload).adjustment)
          (normalizePayload row.payload) now)
        row.jobId (claimUpdate db row.jobId now).nextRunId,
        .ok (claimUpdate db row.jobId now).nextRunId) := by
    unfold CreateRun
    rw [if_neg]
    rw [show (claimUpdate db row.jobId now).runs = db.runs from rfl, hnorun]
    simp
  simp only [processNextJob, cycleFromSubprocess, hcnq, hcr]
  rw [if_neg (by rw [hmk]; simp)]
  have hfin : ∀ db1 : DB,
      (MarkJobSucceeded (MarkRunSucceeded
          (harvest w (claimUpdate db row.jobId now).nextRunId now db1
            w.dirEntries 0)
          (claimUpdate db row.jobId now).nextRunId now)
        row.jobId now).runImages =
      (harvest w (claimUpdate db row.jobId now).nextRunId now db1
        w.dirEntries 0).runImages := fun _ => rfl
  rcases hbrand with hb | ⟨hbt, hbw⟩
  · rw [if_neg (by rw [hb]; simp)]
    rw [if_neg (by rw [hsub]; simp), if_neg (by rw [hread]; simp)]
    dsimp only
    rw [hfin, harvest_images_spec]
    rfl
  · by_cases hb : goTrimSpace row.brandContent ≠ ""
    · rw [if_pos hb, if_neg (by rw [hbt]; simp),
        if_neg (by rw [hbw]; simp),
        if_neg (by rw [hsub]; simp), if_neg (by rw [hread]; simp)]
      dsimp only
      rw [hfin, harvest_images_spec]
      rfl
    · rw [if_neg hb]
      rw [if_neg (by rw [hsub]; simp), if_neg (by rw [hread]; simp)]
      dsimp only
      rw [hfin, harvest_images_spec]
      rfl

/-- Witness for C10: on the fixture store and directory listing with two
recognized images, a directory and a text file, exactly the two images
are recorded with their relative paths and dot-free lowercased formats. -/
theorem worker_harvest_exact_witness :
    (processNextJob fixtureDB fixtureWorld 11).db.runImages.map imageData =
      fixtureDB.runImages.map imageData ++
        harvestExpected fixtureWorld fixtureDB.nextRunId
          (List.enumFrom 0 fixtureWorld.dirEntries) :=
  worker_harvest_exact fixtureDB fixtureWorld 11 fixtureRow (by decide)
    (by decide) (by decide) (Or.inl (by decide)) (by decide) (by decide)

/-! ## Claim C4: FIFO claim order -/

theorem firstMin_none {l : List JobRec}
    (h : firstMinByCreatedAt l = none) : l = [] := by
  cases l with
  | nil => rfl
  | cons a as =>
    unfold firstMinByCreatedAt at h
    cases hm : firstMinByCreatedAt as with
    | none => rw [hm] at h; cases h
    | some m =>
      rw [hm] at h
      dsimp only at h
      by_cases hlt : m.createdAt < a.createdAt
      · rw [if_pos hlt] at h; cases h
      · rw [if_neg hlt] at h; cases h

/-- The stable minimum splits the list into a strictly-later prefix and a
no-earlier suffix. -/
theorem firstMin_decomp {l : List JobRec} {j : JobRec}
    (h : firstMinByCreatedAt l = some j) :
    ∃ l1 l2, l = l1 ++ j :: l2 ∧
      (∀ k ∈ l1, j.createdAt < k.createdAt) ∧
      (∀ k ∈ l2, j.createdAt ≤ k.createdAt) := by
  induction l generalizing j with
  | nil => cases h
  | cons a as ih =>
    unfold firstMinByCreatedAt at h
    cases hm : firstMinByCreatedAt as with
    | none =>
      rw [hm] at h
      dsimp only at h
      cases h
      have hnil := firstMin_none hm
      subst hnil
      exact ⟨[], [], rfl, by simp, by simp⟩
    | some m =>
      rw [hm] at h
      dsimp only at h
      by_cases hlt : m.createdAt < a.createdAt
      · rw [if_pos hlt] at h
        cases h
        obtain ⟨l1, l2, heq, h1, h2⟩ := ih hm
        refine ⟨a :: l1, l2, by rw [heq, List.cons_append], ?_, h2⟩
        intro k hk
        rcases List.mem_cons.mp hk with hk | hk
        · exact hk ▸ hlt
        · exact h1 k hk
      · rw [if_neg hlt] at h
        cases h
        obtain ⟨l1, l2, heq, h1, h2⟩ := ih hm
        refine ⟨[], as, rfl, by simp, ?_⟩
        intro k hk
        have ham : a.createdAt ≤ m.createdAt := Nat.le_of_not_lt hlt
        have hmk : m.createdAt ≤ k.createdAt := by
          rw [heq] at hk
          rcases List.mem_append.mp hk with hk | hk
          · exact Nat.le_of_lt (h1 k hk)
          · rcases List.mem_cons.mp hk with hk | hk
            · exact hk ▸ Nat.le_refl _
            · exact h2 k hk
        exact Nat.le_trans ham hmk

theorem insertFifo_perm (j : JobRec) (s : List JobRec) :
    List.Perm (insertFifo j s) (j :: s) := by
  induction s with
  | nil => exact List.Perm.refl _
  | cons k ks ih =>
    unfold insertFifo
    by_cases hle : j.createdAt ≤ k.createdAt
    · rw [if_pos hle]
    · rw [if_neg hle]
      exact (ih.cons k).trans (List.Perm.swap j k ks)

theorem sortFifo_perm (l : List JobRec) : List.Perm (sortFifo l) l := by
  induction l with
  | nil => exact List.Perm.refl _
  | cons a as ih =>
    exact (insertFifo_perm a (sortFifo as)).trans (ih.cons a)

theorem insertFifo_all_le {j : JobRec} {s : List JobRec}
    (h : ∀ k ∈ s, j.createdAt ≤ k.createdAt) : insertFifo j s = j :: s := by
  cases s with
  | nil => rfl
  | cons k ks =>
    unfold insertFifo
    rw [if_pos (h k (List.mem_cons_self k ks))]

theorem insertFifo_skip {a j : JobRec} {s : List JobRec}
    (h : j.createdAt < a.createdAt) :
    insertFifo a (j :: s) = j :: insertFifo a s := by
  simp only [insertFifo, if_neg (Nat.not_le_of_lt h)]

theorem sortFifo_extract : ∀ (l1 : List JobRec) (l2 : List JobRec)
    (j : JobRec),
    (∀ k ∈ l1, j.createdAt < k.createdAt) →
    (∀ k ∈ l2, j.createdAt ≤ k.createdAt) →
    sortFifo (l1 ++ j :: l2) = j :: sortFifo (l1 ++ l2) := by
  intro l1
  induction l1 with
  | nil =>
    intro l2 j _ h2
    show insertFifo j (sortFifo l2) = j :: sortFifo l2
    refine insertFifo_all_le (fun k hk => ?_)
    exact h2 k ((sortFifo_perm l2).mem_iff.mp hk)
  | cons a l1 ih =>
    intro l2 j h1 h2
    show insertFifo a (sortFifo (l1 ++ j :: l2)) =
      j :: insertFifo a (sortFifo (l1 ++ l2))
    rw [ih l2 j (fun k hk => h1 k (List.mem_cons_of_mem a hk)) h2]
    exact insertFifo_skip (h1 a (List.mem_cons_self a l1))

theorem insertFifo_sorted {j : JobRec} {s : List JobRec}
    (hs : s.Pairwise (fun a b => a.createdAt ≤ b.createdAt)) :
    (insertFifo j s).Pairwise (fun a b => a.createdAt ≤ b.createdAt) := by
  induction s with
  | nil => simp [insertFifo]
  | cons k ks ih =>
    unfold insertFifo
    obtain ⟨hk, hks⟩ := List.pairwise_cons.mp hs
    by_cases hle : j.createdAt ≤ k.createdAt
    · rw [if_pos hle]
      refine List.pairwise_cons.mpr ⟨?_, hs⟩
      intro b hb
      rcases List.mem_cons.mp hb with hb | hb
      · exact hb ▸ hle
      · exact Nat.le_trans hle (hk b hb)
    · rw [if_neg hle]
      refine List.pairwise_cons.mpr ⟨?_, ih hks⟩
      intro b hb
      have hb2 : b ∈ j :: ks := (insertFifo_perm j ks).mem_iff.mp hb
      rcases List.mem_cons.mp hb2 with hb2 | hb2
      · exact hb2 ▸ Nat.le_of_lt (Nat.lt_of_not_le hle)
      · exact hk b hb2

theorem sortFifo_sorted (l : List JobRec) :
    (sortFifo l).Pairwise (fun a b => a.createdAt ≤ b.createdAt) := by
  induction l with
  | nil => simp [sortFifo]
  | cons a as ih => exact insertFifo_sorted ih

theorem joinClaimRow_jobs_indep {db1 db2 : DB} (j : JobRec)
    (hw : db1.workItems = db2.workItems) (hp : db1.projects = db2.projects)
    (hb : db1.brands = db2.brands) :
    joinClaimRow db1 j = joinClaimRow db2 j := by
  unfold joinClaimRow
  rw [hw, hp, hb]

theorem map_id_of_mem_gen {α : Type} {f : α → α} {l : List α}
    (h : ∀ x ∈ l, f x = x) : l.map f = l := by
  induction l with
  | nil => rfl
  | cons a as ih =>
    rw [List.map_cons, h a (List.mem_cons_self a as),
      ih (fun x hx => h x (List.mem_cons_of_mem a hx))]

theorem filter_true_of_all {α : Type} {q : α → Bool} {l : List α}
    (h : ∀ x ∈ l, q x = true) : l.filter q = l := by
  induction l with
  | nil => rfl
  | cons a as ih =>
    rw [List.filter_cons, if_pos (h a (List.mem_cons_self a as)),
      ih (fun x hx => h x (List.mem_cons_of_mem a hx))]

/-- Flipping the claimed job removes exactly it from the claimable
list. -/
theorem claimable_step (db : DB) (now : Nat) (j : JobRec) :
    ∀ jobs : List JobRec,
      jobs.Pairwise (fun a b => a.id ≠ b.id) → j ∈ jobs →
      j.status = .queued →
      (jobs.map (fun k =>
        if k.id == j.id && k.status == JStatus.queued then
          { k with status := .running, startedAt := some now } else k)).filter
        (fun k => k.status == JStatus.queued && (joinClaimRow db k).isSome) =
      (jobs.filter (fun k => k.status == JStatus.queued &&
        (joinClaimRow db k).isSome)).filter (fun k => !(k.id == j.id)) := by
  intro jobs
  induction jobs with
  | nil => intro _ hmem _; cases hmem
  | cons a rest ih =>
    intro hdist hmem hq
    obtain ⟨hahead, hdrest⟩ := List.pairwise_cons.mp hdist
    by_cases ha : a.id = j.id
    · have haj : a = j := by
        rcases List.mem_cons.mp hmem with hj | hj
        · exact hj.symm
        · exact absurd ha (hahead j hj)
      subst haj
      have hrest_id : ∀ k ∈ rest, (k.id == a.id) = false := by
        intro k hk
        simp only [beq_eq_false_iff_ne, ne_eq]
        exact Ne.symm (hahead k hk)
      have hall : ∀ k ∈ rest.filter (fun k =>
          k.status == JStatus.queued && (joinClaimRow db k).isSome),
          (!(k.id == a.id)) = true := by
        intro k hk
        have hk2 := List.mem_filter.mp hk
        simp [hrest_id k hk2.1]
      rw [List.map_cons, List.filter_cons, List.filter_cons]
      rw [show ((if a.id == a.id && a.status == JStatus.queued then
          { a with status := .running, startedAt := some now } else a)) =
        { a with status := .running, startedAt := some now } by
          simp [hq]]
      rw [if_neg (by simp)]
      rw [map_id_of_mem_gen (l := rest) (fun k hk => by
        simp [hrest_id k hk])]
      by_cases hpa : (a.status == JStatus.queued &&
          (joinClaimRow db a).isSome) = true
      · rw [if_pos hpa, List.filter_cons, if_neg (by simp),
          filter_true_of_all hall]
      · rw [if_neg hpa, filter_true_of_all hall]
    · have hjrest : j ∈ rest := by
        rcases List.mem_cons.mp hmem with hj | hj
        · rw [hj] at ha
          exact absurd rfl ha
        · exact hj
      rw [List.map_cons]
      rw [show ((if a.id == j.id && a.status == JStatus.queued then
          { a with status := .running, startedAt := some now } else a)) = a
        by simp [ha]]
      rw [List.filter_cons, List.filter_cons]
      by_cases hpa : (a.status == JStatus.queued &&
          (joinClaimRow db a).isSome) = true
      · rw [if_pos hpa, if_pos hpa, List.filter_cons,
          if_pos (by simp [ha]), ih hdrest hjrest hq]
      · rw [if_neg hpa, if_neg hpa, ih hdrest hjrest hq]

theorem claims_fifo_aux (now : Nat) : ∀ (n : Nat) (db : DB),
    db.jobs.Pairwise (fun a b => a.id ≠ b.id) →
    (claimableJobs db).length = n →
    (claimSeq db now n).map (fun r => r.jobId) =
      (sortFifo (claimableJobs db)).map (fun k => k.id) := by
  intro n
  induction n using Nat.strong_induction_on with
  | _ n ih =>
    intro db hdist hlen
    cases hsel : firstMinByCreatedAt (claimableJobs db) with
    | none =>
      have hnil := firstMin_none hsel
      rw [hnil] at hlen
      subst hlen
      rw [hnil]
      rfl
    | some j =>
      have hjmem := firstMin_mem hsel
      obtain ⟨hjdb, hpred⟩ := List.mem_filter.mp hjmem
      simp only [Bool.and_eq_true, beq_iff_eq] at hpred
      obtain ⟨hq, hjoin⟩ := hpred
      obtain ⟨row, hrow⟩ := Option.isSome_iff_exists.mp hjoin
      have hrid : row.jobId = j.id := joinClaimRow_jobId hrow
      have hclaim : claimSelect db = some row := by
        unfold claimSelect
        rw [hsel]
        exact hrow
      have hcnq : ClaimNextQueuedJob db now =
          (claimUpdate db row.jobId now, some row) := by
        unfold ClaimNextQueuedJob
        rw [hclaim]
      obtain ⟨l1, l2, heq, hltj, hlej⟩ := firstMin_decomp hsel
      have hcdist : (claimableJobs db).Pairwise (fun a b => a.id ≠ b.id) :=
        List.Pairwise.filter _ hdist
      rw [heq] at hcdist
      obtain ⟨hd1, hd2, hdx⟩ := List.pairwise_append.mp hcdist
      have hl1 : ∀ k ∈ l1, k.id ≠ j.id :=
        fun k hk => hdx k hk j (List.mem_cons_self j l2)
      have hl2 : ∀ k ∈ l2, k.id ≠ j.id := by
        intro k hk
        exact Ne.symm ((List.pairwise_cons.mp hd2).1 k hk)
      have hjoin_eq : ∀ k, joinClaimRow (claimUpdate db j.id now) k =
          joinClaimRow db k :=
        fun k => joinClaimRow_jobs_indep k rfl rfl rfl
      have hclb : claimableJobs (claimUpdate db j.id now) =
          (claimableJobs db).filter (fun k => !(k.id == j.id)) := by
        unfold claimableJobs
        rw [List.filter_congr (fun k _ => by rw [hjoin_eq k])]
        exact claimable_step db now j db.jobs hdist hjdb hq
      have hfilter : (claimableJobs db).filter (fun k => !(k.id == j.id)) =
          l1 ++ l2 := by
        rw [heq, List.filter_append, List.filter_cons, if_neg (by simp)]
        rw [filter_true_of_all (fun k hk => by simp [hl1 k hk]),
          filter_true_of_all (fun k hk => by simp [hl2 k hk])]
      have hlen2 : n = l1.length + l2.length + 1 := by
        rw [← hlen, heq]
        simp [List.length_append]
        omega
      subst hlen2
      have hdist1 : (claimUpdate db row.jobId now).jobs.Pairwise
          (fun a b => a.id ≠ b.id) := by
        unfold claimUpdate
        rw [List.pairwise_map]
        refine hdist.imp (fun {a b} hab => ?_)
        by_cases hca : (a.id == row.jobId && a.status == JStatus.queued)
            = true <;>
          by_cases hcb : (b.id == row.jobId && b.status == JStatus.queued)
            = true <;>
          simp [hca, hcb, hab]
      have hlen1 : (claimableJobs (claimUpdate db row.jobId now)).length =
          l1.length + l2.length := by
        rw [hrid, hclb, hfilter, List.length_append]
      have hih := ih (l1.length + l2.length) (by omega)
        (claimUpdate db row.jobId now) hdist1 hlen1
      rw [show claimSeq db now (l1.length + l2.length + 1) =
        (match ClaimNextQueuedJob db now with
          | (_, none) => []
          | (db1, some row) =>
            row :: claimSeq db1 now (l1.length + l2.length)) from rfl]
      rw [hcnq]
      dsimp only
      rw [List.map_cons, hih, hrid, hclb, hfilter, heq,
        sortFifo_extract l1 l2 j hltj hlej, List.map_cons]

/-- C4: with several queued jobs present, successive uninterrupted
invocations of ClaimNextQueuedJob return exactly the claimable jobs in
the order of the stable creation-time sort: strictly older jobs first,
and jobs with equal created_at in rowid (insertion) order, the order the
idx_jobs_status_created index scan delivers.  The second and third
conjuncts record that this reference order is a permutation of the
claimable jobs sorted non-decreasingly by creation time. -/
theorem claims_are_fifo (db : DB) (now : Nat)
    (hdist : db.jobs.Pairwise (fun a b => a.id ≠ b.id)) :
    ((claimSeq db now (claimableJobs db).length).map (fun r => r.jobId) =
      (sortFifo (claimableJobs db)).map (fun k => k.id)) ∧
    List.Perm (sortFifo (claimableJobs db)) (claimableJobs db) ∧
    (sortFifo (claimableJobs db)).Pairwise
      (fun a b => a.createdAt ≤ b.createdAt) :=
  ⟨claims_fifo_aux now _ db hdist rfl, sortFifo_perm _, sortFifo_sorted _⟩

/-- Witness for C4 on a store with jobs enqueued at ticks 20, 10, 10: the
claims come out as job 2, then job 3 (the tie in insertion order), then
job 1. -/
theorem claims_are_fifo_witness :
    (((claimSeq fifoDB 30 (claimableJobs fifoDB).length).map
        (fun r => r.jobId) =
      (sortFifo (claimableJobs fifoDB)).map (fun k => k.id)) ∧
    List.Perm (sortFifo (claimableJobs fifoDB)) (claimableJobs fifoDB) ∧
    (sortFifo (claimableJobs fifoDB)).Pairwise
      (fun a b => a.createdAt ≤ b.createdAt)) ∧
    (claimSeq fifoDB 30 3).map (fun r => r.jobId) = [2, 3, 1] :=
  ⟨claims_are_fifo fifoDB 30 (by decide), by decide⟩

/-! ## Claim C5: job status monotonicity -/

theorem statusLE_refl (a : Option JStatus) : statusLE a a := by
  intro x hx
  refine ⟨x, hx, ?_, ?_⟩
  · exact Nat.le_refl _
  · intro _
    rfl

theorem statusLE_trans : ∀ {a b c : Option JStatus},
    statusLE a b → statusLE b c → statusLE a c := by
  intro a b c hab hbc x hax
  obtain ⟨y, hby, hxy, hxt⟩ := hab x hax
  obtain ⟨z, hcz, hyz, hyt⟩ := hbc y hby
  refine ⟨z, hcz, Nat.le_trans hxy hyz, fun h2 => ?_⟩
  have hyx : y = x := hxt h2
  have : z = y := hyt (by rw [hyx]; exact h2)
  rw [this, hyx]

instance : IsTrans (Option JStatus) statusLE :=
  ⟨fun _ _ _ => statusLE_trans⟩

theorem stepOK_refl (a : Option JStatus) : stepOK a a := by
  refine ⟨statusLE_refl a, ?_⟩
  rintro ⟨h1, h2⟩
  rw [h1] at h2
  rcases h2 with h | h <;> cases h

theorem stepOK_of_eq {a b : Option JStatus} (h : a = b) : stepOK a b :=
  h ▸ stepOK_refl a

theorem stepOK_none_left (b : Option JStatus) : stepOK none b := by
  constructor
  · intro x hx
    cases hx
  · rintro ⟨h1, _⟩
    cases h1

theorem stepOK_running_terminal {a b : Option JStatus}
    (ha : a = some .running)
    (hb : b = some .succeeded ∨ b = some .failed) : stepOK a b := by
  subst ha
  constructor
  · intro x hx
    injection hx with hx
    subst hx
    rcases hb with hb | hb <;> subst hb
    · exact ⟨.succeeded, rfl, by simp [statusRank], by simp [statusRank]⟩
    · exact ⟨.failed, rfl, by simp [statusRank], by simp [statusRank]⟩
  · rintro ⟨h1, _⟩
    cases h1

theorem jobStatus?_claimUpdate (db : DB) (t n jid : Nat) :
    jobStatus? (claimUpdate db t n) jid =
      (db.jobs.find? (fun j => j.id == jid)).map (fun j =>
        if j.id == t && j.status == JStatus.queued then JStatus.running
        else j.status) := by
  unfold jobStatus?
  rw [find?_pres_claimUpdate]
  cases db.jobs.find? (fun j => j.id == jid) with
  | none => rfl
  | some j =>
    simp only [Option.map_some', Option.some.injEq]
    split <;> rfl

theorem stepOK_claimUpdate (db : DB) (t n jid : Nat) :
    stepOK (jobStatus? db jid) (jobStatus? (claimUpdate db t n) jid) := by
  rw [jobStatus?_claimUpdate]
  unfold jobStatus?
  cases hf : db.jobs.find? (fun j => j.id == jid) with
  | none => exact stepOK_none_left _
  | some j =>
    simp only [Option.map_some']
    by_cases hc : (j.id == t && j.status == JStatus.queued) = true
    · rw [if_pos hc]
      have hq : j.status = JStatus.queued := by
        simp only [Bool.and_eq_true, beq_iff_eq] at hc
        exact hc.2
      rw [hq]
      constructor
      · intro x hx
        injection hx with hx
        subst hx
        exact ⟨.running, rfl, by simp [statusRank], by simp [statusRank]⟩
      · rintro ⟨_, h2⟩
        rcases h2 with h | h <;> cases h
    · rw [if_neg hc]
      exact stepOK_refl _

theorem jobStatus?_setJobRunId (db : DB) (t r jid : Nat) :
    jobStatus? (setJobRunId db t r) jid = jobStatus? db jid := by
  unfold jobStatus?
  rw [find?_pres_setJobRunId]
  cases db.jobs.find? (fun j => j.id == jid) with
  | none => rfl
  | some j =>
    simp only [Option.map_some', Option.some.injEq]
    split <;> rfl

theorem find?_pres_MarkJobFailed (db : DB) (t : Nat) (msg : String)
    (n jid : Nat) :
    (MarkJobFailed db t msg n).jobs.find? (fun j => j.id == jid) =
      (db.jobs.find? (fun j => j.id == jid)).map (fun j =>
        if j.id == t then
          { j with status := .failed,
                   errorMessage := some (goTrimSpace msg),
                   finishedAt := some n } else j) := by
  unfold MarkJobFailed
  refine find?_map_pred _ _ (fun x => ?_) _
  by_cases hc : (x.id == t) = true <;> simp [hc]

theorem find?_pres_MarkJobSucceeded (db : DB) (t n jid : Nat) :
    (MarkJobSucceeded db t n).jobs.find? (fun j => j.id == jid) =
      (db.jobs.find? (fun j => j.id == jid)).map (fun j =>
        if j.id == t then
          { j with status := .succeeded, finishedAt := some n } else j) := by
  unfold MarkJobSucceeded
  refine find?_map_pred _ _ (fun x => ?_) _
  by_cases hc : (x.id == t) = true <;> simp [hc]

theorem stepOK_MarkJobFailed (db : DB) (t : Nat) (msg : String) (n jid : Nat)
    (hrun : jobStatus? db t = some .running) :
    stepOK (jobStatus? db jid) (jobStatus? (MarkJobFailed db t msg n) jid) := by
  unfold jobStatus?
  rw [find?_pres_MarkJobFailed]
  cases hf : db.jobs.find? (fun j => j.id == jid) with
  | none => exact stepOK_none_left _
  | some j =>
    simp only [Option.map_some']
    by_cases hc : j.id = t
    · have hjid : j.id = jid := by simpa using List.find?_some hf
      have ht : t = jid := by rw [← hc, hjid]
      subst ht
      have hjs : j.status = JStatus.running := by
        unfold jobStatus? at hrun
        rw [hf] at hrun
        simpa using hrun
      rw [if_pos (by simp [hc]), hjs]
      exact stepOK_running_terminal rfl (Or.inr (by simp))
    · rw [if_neg (by simp [hc])]
      exact stepOK_refl _

theorem stepOK_MarkJobSucceeded (db : DB) (t n jid : Nat)
    (hrun : jobStatus? db t = some .running) :
    stepOK (jobStatus? db jid) (jobStatus? (MarkJobSucceeded db t n) jid)
    := by
  unfold jobStatus?
  rw [find?_pres_MarkJobSucceeded]
  cases hf : db.jobs.find? (fun j => j.id == jid) with
  | none => exact stepOK_none_left _
  | some j =>
    simp only [Option.map_some']
    by_cases hc : j.id = t
    · have hjid : j.id = jid := by simpa using List.find?_some hf
      have ht : t = jid := by rw [← hc, hjid]
      subst ht
      have hjs : j.status = JStatus.running := by
        unfold jobStatus? at hrun
        rw [hf] at hrun
        simpa using hrun
      rw [if_pos (by simp [hc]), hjs]
      exact stepOK_running_terminal rfl (Or.inl (by simp))
    · rw [if_neg (by simp [hc])]
      exact stepOK_refl _

theorem find?_append_some {α : Type} {l1 l2 : List α} {p : α → Bool}
    {a : α} (h : l1.find? p = some a) : (l1 ++ l2).find? p = some a := by
  induction l1 with
  | nil => cases h
  | cons x xs ih =>
    cases hp : p x with
    | true =>
      rw [List.find?_cons_of_pos _ hp] at h
      rw [List.cons_append, List.find?_cons_of_pos _ hp]
      exact h
    | false =>
      rw [List.find?_cons_of_neg _ (by simp [hp])] at h
      rw [List.cons_append, List.find?_cons_of_neg _ (by simp [hp])]
      exact ih h

theorem find?_append_none {α : Type} {l1 : List α} (l2 : List α)
    {p : α → Bool} (h : l1.find? p = none) :
    (l1 ++ l2).find? p = l2.find? p := by
  induction l1 with
  | nil => rfl
  | cons x xs ih =>
    cases hp : p x with
    | true =>
      rw [List.find?_cons_of_pos _ hp] at h
      cases h
    | false =>
      rw [List.find?_cons_of_neg _ (by simp [hp])] at h
      rw [List.cons_append, List.find?_cons_of_neg _ (by simp [hp])]
      exact ih h

theorem stepOK_CreateGenerateJob (db : DB) (ps islug : String)
    (payload : GenerateJobPayload) (n jid : Nat) :
    stepOK (jobStatus? db jid)
      (jobStatus? (CreateGenerateJob db ps islug payload n).1 jid) := by
  unfold CreateGenerateJob
  cases h : GetWorkItem db ps islug with
  | error e => exact stepOK_refl _
  | ok item =>
    dsimp only
    unfold jobStatus?
    cases hf : db.jobs.find? (fun j => j.id == jid) with
    | none => exact stepOK_none_left _
    | some j =>
      rw [show ({ db with
          jobs := db.jobs ++
            [{ id := db.nextJobId, workItemId := item.id, runId := none,
               status := .queued, payload := normalizePayload payload,
               errorMessage := none, createdAt := n, startedAt := none,
               finishedAt := none }],
          nextJobId := db.nextJobId + 1 } : DB).jobs =
        db.jobs ++
          [{ id := db.nextJobId, workItemId := item.id, runId := none,
             status := .queued, payload := normalizePayload payload,
             errorMessage := none, createdAt := n, startedAt := none,
             finishedAt := none }] from rfl]
      rw [find?_append_some hf]
      exact stepOK_refl _

theorem find?_mem_distinct : ∀ {l : List JobRec} {j : JobRec},
    l.Pairwise (fun a b => a.id ≠ b.id) → j ∈ l →
    l.find? (fun k => k.id == j.id) = some j := by
  intro l
  induction l with
  | nil => intro j _ hm; cases hm
  | cons a rest ih =>
    intro j hp hm
    obtain ⟨hhead, hrest⟩ := List.pairwise_cons.mp hp
    rcases List.mem_cons.mp hm with hm | hm
    · subst hm
      rw [List.find?_cons_of_pos _ (by simp)]
    · rw [List.find?_cons_of_neg _ (by simp [hhead j hm]), ih hrest hm]

theorem WFjobs_distinct {db : DB} (h : WFjobs db) :
    db.jobs.Pairwise (fun a b => a.id ≠ b.id) :=
  h.1.imp (fun hab => Nat.ne_of_lt hab)

theorem running_after_claim (db : DB) (now : Nat) {row : ClaimRow}
    (hwf : WFjobs db) (hclaim : claimSelect db = some row) :
    jobStatus? (claimUpdate db row.jobId now) row.jobId = some .running := by
  obtain ⟨j, hjmem, hq, hjid⟩ := claimSelect_origin hclaim
  rw [jobStatus?_claimUpdate, hjid,
    find?_mem_distinct (WFjobs_distinct hwf) hjmem]
  simp [hq]

theorem WFjobs_congr {db2 db : DB} (h1 : db2.jobs = db.jobs)
    (h2 : db2.nextJobId = db.nextJobId) (h : WFjobs db) : WFjobs db2 := by
  obtain ⟨hp, hb⟩ := h
  refine ⟨h1 ▸ hp, ?_⟩
  intro j hj
  rw [h1] at hj
  rw [h2]
  exact hb j hj

theorem WFjobs_of_map {db2 db : DB} (f : JobRec → JobRec)
    (h1 : db2.jobs = db.jobs.map f) (h2 : db2.nextJobId = db.nextJobId)
    (hid : ∀ j, (f j).id = j.id) (h : WFjobs db) : WFjobs db2 := by
  obtain ⟨hp, hb⟩ := h
  constructor
  · rw [h1, List.pairwise_map]
    refine hp.imp (fun {a b} hab => ?_)
    rw [hid a, hid b]
    exact hab
  · intro j hj
    rw [h1] at hj
    obtain ⟨x, hx, hfx⟩ := List.mem_map.mp hj
    rw [h2, ← hfx, hid x]
    exact hb x hx

theorem WFjobs_claimUpdate {db : DB} (t n : Nat) (h : WFjobs db) :
    WFjobs (claimUpdate db t n) :=
  WFjobs_of_map _ rfl rfl
    (fun j => by
      by_cases hc : (j.id == t && j.status == JStatus.queued) = true <;>
        simp [hc]) h

theorem WFjobs_setJobRunId {db : DB} (t r : Nat) (h : WFjobs db) :
    WFjobs (setJobRunId db t r) :=
  WFjobs_of_map _ rfl rfl
    (fun j => by by_cases hc : (j.id == t) = true <;> simp [hc]) h

theorem WFjobs_MarkJobFailed {db : DB} (t : Nat) (msg : String) (n : Nat)
    (h : WFjobs db) : WFjobs (MarkJobFailed db t msg n) :=
  WFjobs_of_map _ rfl rfl
    (fun j => by by_cases hc : (j.id == t) = true <;> simp [hc]) h

theorem WFjobs_MarkJobSucceeded {db : DB} (t n : Nat) (h : WFjobs db) :
    WFjobs (MarkJobSucceeded db t n) :=
  WFjobs_of_map _ rfl rfl
    (fun j => by by_cases hc : (j.id == t) = true <;> simp [hc]) h

theorem harvest_nextJobId (w : WorkerWorld) (rid now : Nat) :
    ∀ (es : List DirEntry) (i : Nat) (db : DB),
      (harvest w rid now db es i).nextJobId = db.nextJobId := by
  intro es
  induction es with
  | nil => intro i db; rfl
  | cons e es ih =>
    intro i db
    unfold harvest
    by_cases hd : e.isDir = true
    · simp only [hd, if_true]
      exact ih _ _
    · simp only [hd, if_false, Bool.false_eq_true]
      by_cases hext : isRecognizedExt (lowerStr (fileExt e.name)) = true
      · simp only [hext, if_true]
        cases hrel : w.relPathOf e.name with
        | none => exact ih _ _
        | some rel =>
          by_cases hins : w.imageInsertOk i = true
          · simp only [hins, if_true]
            exact ih _ _
          · simp only [hins, if_false, Bool.false_eq_true]
            exact ih _ _
      · simp only [hext, if_false, Bool.false_eq_true]
        exact ih _ _

theorem WFjobs_harvest {db : DB} (w : WorkerWorld) (rid now i : Nat)
    (h : WFjobs db) : WFjobs (harvest w rid now db w.dirEntries i) :=
  WFjobs_congr (harvest_jobs w rid now _ i db)
    (harvest_nextJobId w rid now _ i db) h

theorem WFjobs_CreateGenerateJob {db : DB} (ps islug : String)
    (payload : GenerateJobPayload) (n : Nat) (h : WFjobs db) :
    WFjobs (CreateGenerateJob db ps islug payload n).1 := by
  unfold CreateGenerateJob
  cases hg : GetWorkItem db ps islug with
  | error e => exact h
  | ok item =>
    obtain ⟨hp, hb⟩ := h
    constructor
    · rw [show ({ db with
          jobs := db.jobs ++
            [{ id := db.nextJobId, workItemId := item.id, runId := none,
               status := .queued, payload := normalizePayload payload,
               errorMessage := none, createdAt := n, startedAt := none,
               finishedAt := none }],
          nextJobId := db.nextJobId + 1 } : DB).jobs =
        db.jobs ++
          [{ id := db.nextJobId, workItemId := item.id, runId := none,
             status := .queued, payload := normalizePayload payload,
             errorMessage := none, createdAt := n, startedAt := none,
             finishedAt := none }] from rfl]
      rw [List.pairwise_append]
      refine ⟨hp, by simp, ?_⟩
      intro a ha b hbmem
      simp only [List.mem_singleton] at hbmem
      subst hbmem
      exact hb a ha
    · intro j hj
      rcases List.mem_append.mp hj with hj | hj
      · exact Nat.lt_trans (hb j hj) (Nat.lt_succ_self _)
      · simp only [List.mem_singleton] at hj
        subst hj
        exact Nat.lt_succ_self _

/-- Statement-level status chain of one worker cycle: every consecutive
pair of database states is a legal forward step for every job id. -/
theorem cycle_chain (db : DB) (w : WorkerWorld) (now jid : Nat)
    (hwf : WFjobs db) :
    List.Chain' stepOK ((db :: cycleDBs db w now).map
      (fun s => jobStatus? s jid)) := by
  cases hsel : claimSelect db with
  | none =>
    have hcnq : ClaimNextQueuedJob db now = (db, none) := by
      unfold ClaimNextQueuedJob
      rw [hsel]
    simp only [cycleDBs, hcnq, List.map_cons, List.map_nil]
    exact List.chain'_pair.mpr (stepOK_refl _)
  | some row =>
    have hcnq : ClaimNextQueuedJob db now =
        (claimUpdate db row.jobId now, some row) := by
      unfold ClaimNextQueuedJob
      rw [hsel]
    have hrun0 : jobStatus? (claimUpdate db row.jobId now) row.jobId =
        some .running := running_after_claim db now hwf hsel
    rcases hcr : CreateRun (claimUpdate db row.jobId now) row.jobId
        row.workItemId
        (mergedPrompt row.prompt (normalizePayload row.payload).adjustment)
        (normalizePayload row.payload) now with ⟨db1, res⟩
    cases res with
    | error e =>
      have hdb1 := createRun_error_inv hcr
      subst hdb1
      simp only [cycleDBs, hcnq, hcr, List.map_cons, List.map_nil]
      refine List.chain'_cons.mpr
        ⟨stepOK_claimUpdate db row.jobId now jid, ?_⟩
      exact List.chain'_pair.mpr
        (stepOK_MarkJobFailed _ row.jobId e now jid hrun0)
    | ok runId =>
      obtain ⟨hrid, hdb1⟩ := createRun_ok_inv hcr
      have hst31 : jobStatus? db1 jid =
          jobStatus? (runInsert (claimUpdate db row.jobId now) row.jobId
            row.workItemId
            (mergedPrompt row.prompt (normalizePayload row.payload).adjustment)
            (normalizePayload row.payload) now) jid := by
        rw [hdb1, jobStatus?_setJobRunId]
      have hrun1 : jobStatus? db1 row.jobId = some .running := by
        rw [hdb1, jobStatus?_setJobRunId]
        exact hrun0
      have hh : jobStatus? (harvest w runId now db1 w.dirEntries 0) jid =
          jobStatus? db1 jid := by
        unfold jobStatus?
        rw [harvest_jobs]
      have hrun2 : jobStatus? (harvest w runId now db1 w.dirEntries 0)
          row.jobId = some .running := by
        unfold jobStatus?
        rw [harvest_jobs]
        exact hrun1
      simp only [cycleDBs, cycleTailDBs, hcnq, hcr, List.map_cons,
        List.map_nil, List.cons_append, List.nil_append]
      split_ifs
      all_goals
        first
        | (refine List.chain'_cons.mpr
            ⟨stepOK_claimUpdate db row.jobId now jid, ?_⟩
           refine List.chain'_cons.mpr ⟨stepOK_of_eq rfl, ?_⟩
           refine List.chain'_cons.mpr ⟨stepOK_of_eq hst31.symm, ?_⟩
           refine List.chain'_cons.mpr ⟨stepOK_of_eq rfl, ?_⟩
           exact List.chain'_pair.mpr
             (stepOK_MarkJobFailed _ row.jobId _ now jid hrun1))
        | (refine List.chain'_cons.mpr
            ⟨stepOK_claimUpdate db row.jobId now jid, ?_⟩
           refine List.chain'_cons.mpr ⟨stepOK_of_eq rfl, ?_⟩
           refine List.chain'_cons.mpr ⟨stepOK_of_eq hst31.symm, ?_⟩
           refine List.chain'_cons.mpr ⟨stepOK_of_eq hh.symm, ?_⟩
           refine List.chain'_cons.mpr ⟨stepOK_of_eq rfl, ?_⟩
           exact List.chain'_pair.mpr
             (stepOK_MarkJobSucceeded _ row.jobId now jid hrun2))

theorem WFjobs_cycle_last (db : DB) (w : WorkerWorld) (now : Nat)
    (hwf : WFjobs db) : WFjobs ((cycleDBs db w now).getLastD db) := by
  cases hsel : claimSelect db with
  | none =>
    have hcnq : ClaimNextQueuedJob db now = (db, none) := by
      unfold ClaimNextQueuedJob
      rw [hsel]
    simp only [cycleDBs, hcnq]
    exact hwf
  | some row =>
    have hcnq : ClaimNextQueuedJob db now =
        (claimUpdate db row.jobId now, some row) := by
      unfold ClaimNextQueuedJob
      rw [hsel]
    rcases hcr : CreateRun (claimUpdate db row.jobId now) row.jobId
        row.workItemId
        (mergedPrompt row.prompt (normalizePayload row.payload).adjustment)
        (normalizePayload row.payload) now with ⟨db1, res⟩
    cases res with
    | error e =>
      have hdb1 := createRun_error_inv hcr
      subst hdb1
      simp only [cycleDBs, hcnq, hcr]
      exact WFjobs_MarkJobFailed _ _ _
        (WFjobs_claimUpdate _ _ hwf)
    | ok runId =>
      obtain ⟨hrid, hdb1⟩ := createRun_ok_inv hcr
      have hwf1 : WFjobs db1 := by
        rw [hdb1]
        exact WFjobs_setJobRunId _ _
          (WFjobs_congr rfl rfl (WFjobs_claimUpdate _ _ hwf))
      simp only [cycleDBs, cycleTailDBs, hcnq, hcr, List.cons_append,
        List.nil_append]
      split_ifs
      all_goals
        first
        | exact WFjobs_MarkJobFailed _ _ _ (WFjobs_congr rfl rfl hwf1)
        | exact WFjobs_MarkJobSucceeded _ _
            (WFjobs_congr rfl rfl (WFjobs_harvest w runId now 0 hwf1))

theorem event_chain (db : DB) (e : SysEvent) (jid : Nat) (hwf : WFjobs db) :
    List.Chain' stepOK ((db :: applyEvent db e).map
      (fun s => jobStatus? s jid)) := by
  cases e with
  | enqueue ps islug payload n =>
    simp only [applyEvent, List.map_cons, List.map_nil]
    exact List.chain'_pair.mpr
      (stepOK_CreateGenerateJob db ps islug payload n jid)
  | workerCycle w n => exact cycle_chain db w n jid hwf

theorem WFjobs_event_last (db : DB) (e : SysEvent) (hwf : WFjobs db) :
    WFjobs ((applyEvent db e).getLastD db) := by
  cases e with
  | enqueue ps islug payload n =>
    exact WFjobs_CreateGenerateJob ps islug payload n hwf
  | workerCycle w n => exact WFjobs_cycle_last db w n hwf

theorem getLast?_cons_getLastD {α : Type} :
    ∀ (l : List α) (d : α), (d :: l).getLast? = some (l.getLastD d) := by
  intro l
  induction l with
  | nil => intro d; rfl
  | cons a l ih =>
    intro d
    rw [List.getLast?_cons_cons, ih a, List.getLastD_cons]

theorem getLast?_map' {α β : Type} (f : α → β) :
    ∀ (l : List α), (l.map f).getLast? = l.getLast?.map f := by
  intro l
  induction l with
  | nil => rfl
  | cons a l ih =>
    cases l with
    | nil => rfl
    | cons b l2 =>
      rw [List.map_cons, List.map_cons, List.getLast?_cons_cons,
        List.getLast?_cons_cons, ← List.map_cons]
      exact ih

theorem obs_chain (jid : Nat) : ∀ (evts : List SysEvent) (db : DB),
    WFjobs db →
    List.Chain' stepOK ((obsStates db evts).map
      (fun s => jobStatus? s jid)) := by
  intro evts
  induction evts with
  | nil =>
    intro db _
    simp [obsStates, runEvents]
  | cons e es ih =>
    intro db hwf
    have hev := event_chain db e jid hwf
    have hwf2 := WFjobs_event_last db e hwf
    have hrest := ih ((applyEvent db e).getLastD db) hwf2
    simp only [obsStates, List.map_cons] at hrest
    show List.Chain' stepOK ((db :: (applyEvent db e ++
      runEvents ((applyEvent db e).getLastD db) es)).map
        (fun s => jobStatus? s jid))
    rw [show (db :: (applyEvent db e ++
        runEvents ((applyEvent db e).getLastD db) es)) =
      (db :: applyEvent db e) ++
        runEvents ((applyEvent db e).getLastD db) es from rfl]
    rw [List.map_append, List.chain'_append]
    refine ⟨hev, hrest.tail, ?_⟩
    intro x hx y hy
    rw [getLast?_map', getLast?_cons_getLastD, Option.map_some',
      Option.mem_def, Option.some_inj] at hx
    subst hx
    exact (List.chain'_cons'.mp hrest).1 y hy

/-- C5: in the statement-level state sequence produced by any sequence of
enqueues and worker cycles from a well-formed store (cycles never overlap
one another, as with the single worker goroutine; an enqueue, which only
appends a fresh queued job, lands between cycles), each job's status only
moves forward: consecutive states never step a job backward and never
step it from queued directly to a terminal status (first conjunct); and
between ANY two sample points an existing job stays present, its rank
along queued < running < terminal never decreases, and a terminal status
never changes (second conjunct). -/
theorem job_status_monotone (db : DB) (evts : List SysEvent) (jid : Nat)
    (hwf : WFjobs db) :
    List.Chain' stepOK ((obsStates db evts).map
      (fun s => jobStatus? s jid)) ∧
    List.Pairwise statusLE ((obsStates db evts).map
      (fun s => jobStatus? s jid)) := by
  have hc := obs_chain jid evts db hwf
  refine ⟨hc, ?_⟩
  have hc2 : List.Chain' statusLE ((obsStates db evts).map
      (fun s => jobStatus? s jid)) :=
    hc.imp (fun a b hab => hab.1)
  exact List.chain'_iff_pairwise.mp hc2

/-- Witness for C5: a worker cycle followed by an enqueue on the fixture
store, observed at job id 1. -/
theorem job_status_monotone_witness :
    List.Chain' stepOK ((obsStates fixtureDB
        [SysEvent.workerCycle fixtureWorld 11,
         SysEvent.enqueue "demo" "icon" fixturePayload 12]).map
      (fun s => jobStatus? s 1)) ∧
    List.Pairwise statusLE ((obsStates fixtureDB
        [SysEvent.workerCycle fixtureWorld 11,
         SysEvent.enqueue "demo" "icon" fixturePayload 12]).map
      (fun s => jobStatus? s 1)) :=
  job_status_monotone fixtureDB
    [SysEvent.workerCycle fixtureWorld 11,
     SysEvent.enqueue "demo" "icon" fixturePayload 12] 1
    (by
      constructor
      · simp [fixtureDB]
      · intro j hj
        simp only [fixtureDB, List.mem_singleton] at hj
        subst hj
        decide)

end Imagegen
